import Mathlib

/-!
# xlsx2json: the row-to-record transform pipeline

A shallow embedding of `processSheet` and `Run` from `xlsx2json.go`.

* A sheet is the list of its rows, a row the list of its cells, and a cell is
  the text `cell.String()` returns for it.
* A Go `map[string]T` is an association list with one entry per key, held in
  key order, which is the order `json.Marshal` writes the entries in.
* The JavaScript VM is a collaborator: `Eval` is a state transformer, the
  value it returns is known through `Export` and its `%v` rendering.
* `encoding/json` is modelled on syntax trees: `json.Marshal` writes a tree as
  text, and `json.Unmarshal` of the text `json.Marshal` wrote is modelled as
  the decoding of the tree itself.  A number is carried by two JSON texts: the
  one `json.Marshal` writes for it as exported, and the one `json.Marshal`
  writes for the `float64` that `json.Unmarshal` decodes the first text to
  (what `strconv` computes is taken from the value, not computed).
* A nil slice is the empty list: `processSheet` never builds an empty slice
  that is not nil.
* Besides its Go results, a run records the ghost list `evals` of the source
  texts passed to `js.Eval`, in call order.
-/

namespace Xlsx2json

deriving instance DecidableEq for Except

/-! ## Worksheets -/

/-- A row of an xlsx sheet: the `cell.String()` text of each of `row.Cells`. -/
abbrev Row := List String

/-- A sheet: its `sheet.Rows`. -/
abbrev Sheet := List Row

/-! ## Go maps with string keys -/

/-- Byte-wise string order on the characters (the order of Go's `<` on strings). -/
def ltChars : List Char → List Char → Bool
  | _, [] => false
  | [], _ :: _ => true
  | a :: as, b :: bs =>
    if a.toNat < b.toNat then true
    else if b.toNat < a.toNat then false
    else ltChars as bs

/-- Key order of `json.Marshal` on maps. -/
def keyLt (a b : String) : Bool := ltChars a.data b.data

/-- The Go assignment `m[k] = v`. -/
def mapSet {β : Type} (k : String) (v : β) : List (String × β) → List (String × β)
  | [] => [(k, v)]
  | (k1, v1) :: rest =>
    if k = k1 then (k, v) :: rest
    else if keyLt k k1 then (k, v) :: (k1, v1) :: rest
    else (k1, v1) :: mapSet k v rest

/-- The Go lookup `m[k]` with its presence flag. -/
def mapGet {β : Type} (k : String) : List (String × β) → Option β
  | [] => none
  | (k1, v1) :: rest => if k = k1 then some v1 else mapGet k rest

/-- The keys of a map. -/
def mapKeys {β : Type} (m : List (String × β)) : List String := m.map Prod.fst

/-! ## encoding/json: writing -/

/-- One lower-case hexadecimal digit. -/
def hexDigit (n : Nat) : Char :=
  if n < 10 then Char.ofNat (48 + n) else Char.ofNat (87 + n)

/-- The four hexadecimal digits of a code unit. -/
def hex4 (n : Nat) : String :=
  String.mk [hexDigit (n / 4096 % 16), hexDigit (n / 256 % 16), hexDigit (n / 16 % 16),
    hexDigit (n % 16)]

/-- The text `json.Marshal` writes for one character of a string. -/
def encodeChar (c : Char) : String :=
  if c.toNat = 34 then "\\\""
  else if c.toNat = 92 then "\\\\"
  else if c.toNat = 10 then "\\n"
  else if c.toNat = 13 then "\\r"
  else if c.toNat = 9 then "\\t"
  else if c.toNat < 32 ∨ c.toNat = 60 ∨ c.toNat = 62 ∨ c.toNat = 38 ∨
      c.toNat = 8232 ∨ c.toNat = 8233 then "\\u" ++ hex4 c.toNat
  else String.singleton c

/-- The quoted text `json.Marshal` writes for a Go string. -/
def encodeString (s : String) : String :=
  "\"" ++ String.join (s.data.map encodeChar) ++ "\""

/-- The members of a JSON object, comma separated. -/
def joinMembers : List String → String
  | [] => ""
  | [m] => m
  | m :: rest => m ++ "," ++ joinMembers rest

/-- The JSON object text of a non-nil `map[string]string`. -/
def stringMapText (m : List (String × String)) : String :=
  "\x7b" ++ joinMembers (m.map fun kv => encodeString kv.1 ++ ":" ++ encodeString kv.2) ++ "\x7d"

/-- `json.Marshal` on a non-nil `map[string]string`: it never fails. -/
def marshalStringMap (m : List (String × String)) : Except String String :=
  .ok (stringMapText m)

/-- A Go value as `Export` hands it to `json.Marshal`, and as `json.Unmarshal`
stores it in an `interface{}`.  For a number, `text` is the JSON text
`json.Marshal` writes for it and `float64Text` the text `json.Marshal` writes
for the `float64` that `json.Unmarshal` decodes `text` to: the same text for a
`float64` and for an integer of magnitude up to `2^53`, and for the `int64`
`9007199254740993` the texts `9007199254740993` and `9007199254740992`. -/
inductive GoValue where
  | null
  | bool (b : Bool)
  | number (text : String) (float64Text : String)
  | string (s : String)
  | array (items : List GoValue)
  | object (fields : List (String × GoValue))
  | unsupported (what : String)

mutual
/-- A value with the entries of every map in key order, one per key. -/
def canon : GoValue → GoValue
  | .array items => .array (canonItems items)
  | .object fields => .object (canonFields fields)
  | v => v
/-- The items of a slice, each in canonical form. -/
def canonItems : List GoValue → List GoValue
  | [] => []
  | v :: rest => canon v :: canonItems rest
/-- The entries of a map in key order, each in canonical form. -/
def canonFields : List (String × GoValue) → List (String × GoValue)
  | [] => []
  | (k, v) :: rest => mapSet k (canon v) (canonFields rest)
end

mutual
/-- The first value `json.Marshal` rejects (a NaN or infinite float, a func). -/
def firstUnsupported : GoValue → Option String
  | .unsupported what => some what
  | .array items => firstUnsupportedItems items
  | .object fields => firstUnsupportedFields fields
  | _ => none
/-- The first rejected value among the items of a slice. -/
def firstUnsupportedItems : List GoValue → Option String
  | [] => none
  | v :: rest =>
    match firstUnsupported v with
    | some what => some what
    | none => firstUnsupportedItems rest
/-- The first rejected value among the entries of a map. -/
def firstUnsupportedFields : List (String × GoValue) → Option String
  | [] => none
  | (_, v) :: rest =>
    match firstUnsupported v with
    | some what => some what
    | none => firstUnsupportedFields rest
end

mutual
/-- The JSON text of a value. -/
def encodeValue : GoValue → String
  | .null => "null"
  | .bool b => if b then "true" else "false"
  | .number text _ => text
  | .string s => encodeString s
  | .array items => "[" ++ joinMembers (encodeItems items) ++ "]"
  | .object fields => "\x7b" ++ joinMembers (encodeFields fields) ++ "\x7d"
  | .unsupported _ => ""
/-- The JSON texts of the items of a slice. -/
def encodeItems : List GoValue → List String
  | [] => []
  | v :: rest => encodeValue v :: encodeItems rest
/-- The JSON texts of the entries of a map. -/
def encodeFields : List (String × GoValue) → List String
  | [] => []
  | (k, v) :: rest => (encodeString k ++ ":" ++ encodeValue v) :: encodeFields rest
end

/-- `json.Marshal` on an `interface{}`. -/
def marshalValue (v : GoValue) : Except String String :=
  match firstUnsupported (canon v) with
  | some what => .error ("json: unsupported value: " ++ what)
  | none => .ok (encodeValue (canon v))

/-- `json.Marshal` on a `map[string]interface{}`; a nil map is written `null`. -/
def marshalSource (m : Option (List (String × GoValue))) : Except String String :=
  match m with
  | none => .ok "null"
  | some fields => marshalValue (.object fields)

/-! ## encoding/json: reading into `jsResponse` -/

/-- The struct `jsResponse`; a nil `Source` map is `none`. -/
structure jsResponse where
  Path : String
  Source : Option (List (String × GoValue))
  Error : String

/-- The zero value `new(jsResponse)` points to. -/
def jsResponse.zero : jsResponse := ⟨"", none, ""⟩

/-- Simple case folding of one character of an object key. -/
def foldRune (c : Char) : Char :=
  if 65 ≤ c.toNat ∧ c.toNat ≤ 90 then Char.ofNat (c.toNat + 32)
  else if c.toNat = 383 then Char.ofNat 115
  else if c.toNat = 8490 then Char.ofNat 107
  else c

/-- An object key, case folded: `json.Unmarshal` matches keys to struct fields
without regard to case. -/
def foldName (key : String) : String := String.mk (key.data.map foldRune)

/-- The name of a JSON kind in the messages of `json.Unmarshal`. -/
def kindName : GoValue → String
  | .null => "null"
  | .bool _ => "bool"
  | .number _ _ => "number"
  | .string _ => "string"
  | .array _ => "array"
  | .object _ => "object"
  | .unsupported _ => "value"

/-- The message of an `UnmarshalTypeError` on a field of `jsResponse`. -/
def fieldTypeError (v : GoValue) (field goType : String) : String :=
  "json: cannot unmarshal " ++ kindName v ++ " into Go struct field jsResponse." ++ field ++
    " of type " ++ goType

/-- Decoding of a JSON value into a field of type `string`. -/
def decodeStringField (field : String) (old : String) (v : GoValue) : String × Option String :=
  match v with
  | .string s => (s, none)
  | .null => (old, none)
  | other => (old, some (fieldTypeError other field "string"))

mutual
/-- A JSON value as `json.Unmarshal` stores it in an `interface{}`: every
number becomes a `float64`, whose text is from then on its `float64Text`. -/
def decodeInterface : GoValue → GoValue
  | .number _ float64Text => .number float64Text float64Text
  | .array items => .array (decodeItems items)
  | .object fields => .object (decodeFields fields)
  | v => v
/-- The items of a JSON array as `json.Unmarshal` stores them in a `[]interface{}`. -/
def decodeItems : List GoValue → List GoValue
  | [] => []
  | v :: rest => decodeInterface v :: decodeItems rest
/-- The members of a JSON object as `json.Unmarshal` stores them in a
`map[string]interface{}`. -/
def decodeFields : List (String × GoValue) → List (String × GoValue)
  | [] => []
  | (k, v) :: rest => (k, decodeInterface v) :: decodeFields rest
end

/-- Decoding of a JSON value into the field `Source`: an object is stored
entry by entry into the map (made first when nil), each value as
`json.Unmarshal` stores it in an `interface{}`; `null` makes the map nil. -/
def decodeSourceField (old : Option (List (String × GoValue))) (v : GoValue) :
    Option (List (String × GoValue)) × Option String :=
  match v with
  | .object fields =>
    (some ((decodeFields fields).foldl (fun m kv => mapSet kv.1 kv.2 m) (old.getD [])), none)
  | .null => (none, none)
  | other => (old, some (fieldTypeError other "source" "map[string]interface \x7b\x7d"))

/-- The first error wins: `json.Unmarshal` goes on decoding after a type error
and reports the first one. -/
def firstError (saved new : Option String) : Option String :=
  match saved with
  | some e => some e
  | none => new

/-- One member of the JSON object, decoded into the struct. -/
def decodeMember (st : jsResponse × Option String) (kv : String × GoValue) :
    jsResponse × Option String :=
  let r := st.1
  if foldName kv.1 = "path" then
    let d := decodeStringField "path" r.Path kv.2
    (⟨d.1, r.Source, r.Error⟩, firstError st.2 d.2)
  else if foldName kv.1 = "source" then
    let d := decodeSourceField r.Source kv.2
    (⟨r.Path, d.1, r.Error⟩, firstError st.2 d.2)
  else if foldName kv.1 = "error" then
    let d := decodeStringField "error" r.Error kv.2
    (⟨r.Path, r.Source, d.1⟩, firstError st.2 d.2)
  else st

/-- The call `json.Unmarshal(src, &response)` where `response` is the pointer
`new(jsResponse)` and `src` is the text of `v`: the new value of the pointer
(`none` is the nil pointer, which JSON `null` sets) or the error. -/
def unmarshalResponse (v : GoValue) : Except String (Option jsResponse) :=
  match canon v with
  | .null => .ok none
  | .object fields =>
    match fields.foldl decodeMember (jsResponse.zero, none) with
    | (_, some e) => .error e
    | (r, none) => .ok (some r)
  | other =>
    .error ("json: cannot unmarshal " ++ kindName other ++
      " into Go value of type xlsx2json.jsResponse")

/-! ## The JavaScript VM -/

/-- An `otto.Value` as `processSheet` uses it: what `Export` returns, and the
text `%v` renders it as. -/
structure Value where
  Export : Except String GoValue
  fmtV : String

/-- The `*ostdlib.JavaScriptVM` as `processSheet` uses it, over VM states `σ`:
`Eval` runs a source text in a state, `fmtS` is the text `%s` renders the VM as. -/
structure JavaScriptVM (σ : Type) where
  Eval : σ → String → Except String Value × σ
  fmtS : σ → String

/-! ## processSheet -/

/-- The body of the loop over `row.Cells` (lines 89-103), on the pair of
`columnNames` and `jsonBlob`. -/
def cellStep (rowNo colNo : Nat) (cell : String) (st : List String × List (String × String)) :
    List String × List (String × String) :=
  if rowNo = 0 then
    (st.1 ++ [cell], st.2)
  else if h : colNo < st.1.length then
    (st.1, mapSet (st.1.get ⟨colNo, h⟩) cell st.2)
  else
    let k := "column_" ++ toString (colNo + 1)
    (st.1 ++ [k], mapSet k cell st.2)

/-- The loop `for colNo, cell := range row.Cells`, from column `colNo` on. -/
def cellLoop (rowNo : Nat) : Nat → List String → List String × List (String × String) →
    List String × List (String × String)
  | _, [], st => st
  | colNo, cell :: rest, st => cellLoop rowNo (colNo + 1) rest (cellStep rowNo colNo cell st)

/-- One row through lines 87-104: `columnNames` after the row, and its `jsonBlob`. -/
def rowCells (rowNo : Nat) (row : Row) (columnNames : List String) :
    List String × List (String × String) :=
  cellLoop rowNo 0 row (columnNames, [])

/-- How the body of `if rowNo > 0` ends for one row. -/
inductive RowResult where
  | emit (src : String)
  | fail (err : String)
  | panic (msg : String)
  deriving DecidableEq

/-- A row through lines 106-138, with the VM state after it and the source
texts passed to `js.Eval`. -/
structure RowExec (σ : Type) where
  result : RowResult
  vm : σ
  evals : List String

/-- The source text of line 112. -/
def jsSrc (jsCallback src : String) : String :=
  "(function()\x7b return " ++ jsCallback ++ "(" ++ src ++ ");\x7d())"

/-- The message of the nil pointer dereference. -/
def nilDereference : String :=
  "runtime error: invalid memory address or nil pointer dereference"

/-- Lines 106-138 for the row `rowNo` with record `jsonBlob`. -/
def transformRow {σ : Type} (js : JavaScriptVM σ) (jsCallback : String) (rowNo : Nat)
    (jsonBlob : List (String × String)) (vm : σ) : RowExec σ :=
  match marshalStringMap jsonBlob with
  | .error err => ⟨.fail ("Can't render JSON blob, " ++ err), vm, []⟩
  | .ok src =>
    if jsCallback ≠ "" then
      match js.Eval vm (jsSrc jsCallback src) with
      | (.error err, vm1) =>
        ⟨.fail ("row: " ++ toString rowNo ++ ", Can't run " ++ err), vm1, [jsSrc jsCallback src]⟩
      | (.ok jsValue, vm1) =>
        match jsValue.Export with
        | .error err =>
          ⟨.fail ("row: " ++ toString rowNo ++ ", Can't convert JavaScript value " ++ jsCallback
            ++ "(" ++ src ++ "), " ++ err), vm1, [jsSrc jsCallback src]⟩
        | .ok val =>
          match marshalValue val with
          | .error err =>
            ⟨.fail ("row: " ++ toString rowNo ++ ", src: " ++ js.fmtS vm1 ++ "\njs returned "
              ++ jsValue.fmtV ++ "\nerror: " ++ err), vm1, [jsSrc jsCallback src]⟩
          | .ok src1 =>
            match unmarshalResponse val with
            | .error err =>
              ⟨.fail ("row: " ++ toString rowNo ++ ", do not understand response " ++ src1
                ++ ", " ++ err), vm1, [jsSrc jsCallback src]⟩
            | .ok none => ⟨.panic nilDereference, vm1, [jsSrc jsCallback src]⟩
            | .ok (some response) =>
              if response.Error ≠ "" then
                ⟨.fail ("row: " ++ toString rowNo ++ ", " ++ response.Error), vm1,
                  [jsSrc jsCallback src]⟩
              else
                match marshalSource response.Source with
                | .error err =>
                  ⟨.fail ("row: " ++ toString rowNo ++ ", " ++ err), vm1, [jsSrc jsCallback src]⟩
                | .ok src2 => ⟨.emit src2, vm1, [jsSrc jsCallback src]⟩
    else ⟨.emit src, vm, []⟩

/-- How a call ends: it returns its two results, or it panics. -/
inductive Outcome where
  | returned (output : List String) (err : Option String)
  | panicked (msg : String)
  deriving DecidableEq

/-- A call with the VM state after it and the source texts passed to `js.Eval`. -/
structure Exec (σ : Type) where
  outcome : Outcome
  vm : σ
  evals : List String

/-- The loop `for rowNo, row := range sheet.Rows`, from row `rowNo` on. -/
def sheetLoop {σ : Type} (js : JavaScriptVM σ) (jsCallback : String) :
    Nat → List Row → List String → List String → σ → List String → Exec σ
  | _, [], _, output, vm, evals => ⟨.returned output none, vm, evals⟩
  | rowNo, row :: rest, columnNames, output, vm, evals =>
    let cells := rowCells rowNo row columnNames
    if rowNo > 0 then
      let r := transformRow js jsCallback rowNo cells.2 vm
      match r.result with
      | .emit src =>
        sheetLoop js jsCallback (rowNo + 1) rest cells.1 (output ++ [src]) r.vm (evals ++ r.evals)
      | .fail err => ⟨.returned output (some err), r.vm, evals ++ r.evals⟩
      | .panic msg => ⟨.panicked msg, r.vm, evals ++ r.evals⟩
    else sheetLoop js jsCallback (rowNo + 1) rest cells.1 output vm evals

/-- The function `processSheet`, run from the VM state `vm`. -/
def processSheet {σ : Type} (js : JavaScriptVM σ) (vm : σ) (jsCallback : String)
    (sheet : Sheet) : Exec σ :=
  sheetLoop js jsCallback 0 sheet [] [] vm []

/-! ## Run -/

/-- The loop `for i, sheet := range xlFile.Sheets` of `Run`, from sheet `i` on:
the sheet whose position is `sheetNo`. -/
def findSheet : Nat → List Sheet → Int → Option Sheet
  | _, [], _ => none
  | i, sheet :: rest, sheetNo => if (i : Int) = sheetNo then some sheet else findSheet (i + 1) rest sheetNo

/-- The function `Run`; `openFile` stands for `xlsx.OpenFile`, giving the
sheets of the workbook at a path. -/
def Run {σ : Type} (openFile : String → Except String (List Sheet)) (js : JavaScriptVM σ)
    (vm : σ) (inputFilename : String) (sheetNo : Int) (jsCallback : String) : Exec σ :=
  match openFile inputFilename with
  | .error err => ⟨.returned [] (some ("Can't open " ++ inputFilename ++ ", " ++ err)), vm, []⟩
  | .ok sheets =>
    match findSheet 0 sheets sheetNo with
    | some sheet =>
      let r := processSheet js vm jsCallback sheet
      match r.outcome with
      | .returned output none => ⟨.returned output none, r.vm, r.evals⟩
      | .returned _ (some err) => ⟨.returned [] (some err), r.vm, r.evals⟩
      | .panicked msg => ⟨.panicked msg, r.vm, r.evals⟩
    | none => ⟨.returned [] (some ("Could not find sheet no " ++ toString sheetNo)), vm, []⟩

/-! ## The state of the loop at a row -/

/-- The `columnNames` after the rows `rows`, the first of which is row `rowNo`. -/
def scanNames : Nat → List Row → List String → List String
  | _, [], columnNames => columnNames
  | rowNo, row :: rest, columnNames => scanNames (rowNo + 1) rest (rowCells rowNo row columnNames).1

/-- The `columnNames` when row `i` of the sheet is reached. -/
def namesAt (sheet : Sheet) (i : Nat) : List String := scanNames 0 (sheet.take i) []

/-- The `jsonBlob` of row `i` of the sheet when line 105 is reached. -/
def recordAt (sheet : Sheet) (i : Nat) : List (String × String) :=
  (rowCells i (sheet.getD i []) (namesAt sheet i)).2

/-- The `jsonBlob` of each of the rows `rows`, the first of which is row `rowNo`. -/
def blobsFrom : Nat → List Row → List String → List (List (String × String))
  | _, [], _ => []
  | rowNo, row :: rest, columnNames =>
    (rowCells rowNo row columnNames).2 :: blobsFrom (rowNo + 1) rest (rowCells rowNo row columnNames).1


/-! ## The state of the loop of processSheet -/

/-- The variables of `processSheet` at the head of the loop over the rows,
with the VM state and the source texts evaluated so far. -/
structure LoopState (σ : Type) where
  columnNames : List String
  output : List String
  vm : σ
  evals : List String

/-- The loop of `processSheet` over the rows `rows`, the first of which is row
`rowNo`: the state after them, when none of them made the function return. -/
def reach {σ : Type} (js : JavaScriptVM σ) (jsCallback : String) :
    Nat → List Row → LoopState σ → Option (LoopState σ)
  | _, [], st => some st
  | rowNo, row :: rest, st =>
    let cells := rowCells rowNo row st.columnNames
    if rowNo > 0 then
      let r := transformRow js jsCallback rowNo cells.2 st.vm
      match r.result with
      | .emit src =>
        reach js jsCallback (rowNo + 1) rest ⟨cells.1, st.output ++ [src], r.vm, st.evals ++ r.evals⟩
      | .fail _ => none
      | .panic _ => none
    else reach js jsCallback (rowNo + 1) rest ⟨cells.1, st.output, st.vm, st.evals⟩

/-- The state of the loop of `processSheet` when row `i` is reached. -/
def stateAt {σ : Type} (js : JavaScriptVM σ) (vm : σ) (jsCallback : String) (sheet : Sheet)
    (i : Nat) : Option (LoopState σ) :=
  reach js jsCallback 0 (sheet.take i) ⟨[], [], vm, []⟩

/-- Lines 106-138 for row `i` of the sheet, from the loop state `st`. -/
def rowExec {σ : Type} (js : JavaScriptVM σ) (jsCallback : String) (sheet : Sheet) (i : Nat)
    (st : LoopState σ) : RowExec σ :=
  transformRow js jsCallback i (recordAt sheet i) st.vm

/-! ## encoding/json: reading an object of strings -/

/-- The value of a hexadecimal digit. -/
def hexValue (c : Char) : Option Nat :=
  if 48 ≤ c.toNat ∧ c.toNat ≤ 57 then some (c.toNat - 48)
  else if 97 ≤ c.toNat ∧ c.toNat ≤ 102 then some (c.toNat - 87)
  else if 65 ≤ c.toNat ∧ c.toNat ≤ 70 then some (c.toNat - 55)
  else none

/-- The character a one-letter escape stands for. -/
def unescape (e : Char) : Option Char :=
  if e.toNat = 34 then some (Char.ofNat 34)
  else if e.toNat = 92 then some (Char.ofNat 92)
  else if e.toNat = 47 then some (Char.ofNat 47)
  else if e.toNat = 110 then some (Char.ofNat 10)
  else if e.toNat = 114 then some (Char.ofNat 13)
  else if e.toNat = 116 then some (Char.ofNat 9)
  else if e.toNat = 98 then some (Char.ofNat 8)
  else if e.toNat = 102 then some (Char.ofNat 12)
  else none

/-- The characters of a JSON string, read up to its closing quote, and the
text after the quote; `fuel` bounds the number of characters read. -/
def readChars : Nat → List Char → Option (List Char × List Char)
  | 0, _ => none
  | _ + 1, [] => none
  | fuel + 1, c :: rest =>
    if c.toNat = 34 then some ([], rest)
    else if c.toNat = 92 then
      match rest with
      | [] => none
      | e :: rest1 =>
        if e.toNat = 117 then
          match rest1 with
          | a :: b :: c2 :: d :: rest2 =>
            match hexValue a, hexValue b, hexValue c2, hexValue d with
            | some x, some y, some z, some w =>
              (readChars fuel rest2).map fun r =>
                (Char.ofNat (x * 4096 + y * 256 + z * 16 + w) :: r.1, r.2)
            | _, _, _, _ => none
          | _ => none
        else
          match unescape e with
          | some ch => (readChars fuel rest1).map fun r => (ch :: r.1, r.2)
          | none => none
    else (readChars fuel rest).map fun r => (c :: r.1, r.2)

/-- A quoted JSON string at the head of a text, and the text after it. -/
def readString (fuel : Nat) : List Char → Option (String × List Char)
  | [] => none
  | q :: rest =>
    if q.toNat = 34 then (readChars fuel rest).map fun r => (String.mk r.1, r.2) else none

/-- The members `"key":"value"` of a JSON object up to its closing brace, and
the text after the brace. -/
def readMembers : Nat → List Char → Option (List (String × String) × List Char)
  | 0, _ => none
  | fuel + 1, cs =>
    match readString cs.length cs with
    | none => none
    | some (k, rest1) =>
      match rest1 with
      | [] => none
      | colon :: rest2 =>
        if colon.toNat = 58 then
          match readString rest2.length rest2 with
          | none => none
          | some (v, rest3) =>
            match rest3 with
            | [] => none
            | sep :: rest4 =>
              if sep.toNat = 125 then some ([(k, v)], rest4)
              else if sep.toNat = 44 then
                (readMembers fuel rest4).map fun r => ((k, v) :: r.1, r.2)
              else none
        else none

/-- The members of the JSON object of strings a text holds: a reader for the
object texts `json.Marshal` writes for a `map[string]string`. -/
def decodeStringMap (text : String) : Option (List (String × String)) :=
  match text.data with
  | [] => none
  | open1 :: rest =>
    if open1.toNat = 123 then
      match rest with
      | [] => none
      | close1 :: rest1 =>
        if close1.toNat = 125 ∧ rest1 = [] then some []
        else
          match readMembers rest.length rest with
          | some (m, []) => some m
          | _ => none
    else none

/-! ## The shapes `json.Unmarshal` rejects -/

/-- A member of the returned object whose value the field it names does not
take: `path` and `error` take a string or `null`, `source` an object or `null`. -/
def badMember (kv : String × GoValue) : Bool :=
  if foldName kv.1 = "path" ∨ foldName kv.1 = "error" then
    match kv.2 with
    | .string _ => false
    | .null => false
    | _ => true
  else if foldName kv.1 = "source" then
    match kv.2 with
    | .object _ => false
    | .null => false
    | _ => true
  else false

/-- A returned value that is neither `null` nor an object, or an object with
a member of the wrong kind. -/
def rejectedShape (v : GoValue) : Bool :=
  match canon v with
  | .null => false
  | .object fields => fields.any badMember
  | _ => true

/-- Every value of the `Source` map is one `json.Marshal` accepts. -/
def SourceSupported (r : jsResponse) : Prop :=
  ∀ m, r.Source = some m → firstUnsupportedFields m = none

/-! ## Counting data rows -/

/-- The number of data rows among `n` rows the first of which is row `rowNo`. -/
def dataRows (rowNo n : Nat) : Nat := if rowNo = 0 then n - 1 else n

/-! ## Notions of the statements and proofs -/

/-- The assignments `m[k] = v` for the pairs of a list, in order. -/
def mapSetAll {β : Type} (m : List (String × β)) (kvs : List (String × β)) : List (String × β) :=
  kvs.foldl (fun acc kv => mapSet kv.1 kv.2 acc) m

/-- The name line 98 makes for the column at position `colNo`. -/
def columnName (colNo : Nat) : String := "column_" ++ toString (colNo + 1)

/-- The entries of a map are in key order, one per key. -/
def KeyOrdered {β : Type} (m : List (String × β)) : Prop :=
  m.Pairwise (fun a b => keyLt a.1 b.1 = true)

/-- The number a list of decimal digit characters stands for. -/
def digitsValue (ds : List Char) : Nat :=
  ds.foldl (fun acc c => acc * 10 + (c.toNat - 48)) 0

/-- From position `H` on, every name is the one line 98 makes for its position. -/
def Synthesized (H : Nat) (names : List String) : Prop :=
  ∀ (k : Nat) (name : String), H ≤ k → names[k]? = some name → name = columnName k

/-- The characters `json.Marshal` writes for one character. -/
def encodeCharData (c : Char) : List Char :=
  if c.toNat = 34 then [Char.ofNat 92, Char.ofNat 34]
  else if c.toNat = 92 then [Char.ofNat 92, Char.ofNat 92]
  else if c.toNat = 10 then [Char.ofNat 92, Char.ofNat 110]
  else if c.toNat = 13 then [Char.ofNat 92, Char.ofNat 114]
  else if c.toNat = 9 then [Char.ofNat 92, Char.ofNat 116]
  else if c.toNat < 32 ∨ c.toNat = 60 ∨ c.toNat = 62 ∨ c.toNat = 38 ∨
      c.toNat = 8232 ∨ c.toNat = 8233 then
    [Char.ofNat 92, Char.ofNat 117, hexDigit (c.toNat / 4096 % 16), hexDigit (c.toNat / 256 % 16),
      hexDigit (c.toNat / 16 % 16), hexDigit (c.toNat % 16)]
  else [c]

/-- The text of one member of an object of strings. -/
def memberText (kv : String × String) : String :=
  encodeString kv.1 ++ ":" ++ encodeString kv.2

/-! ## Collaborators for the examples -/

/-- A VM whose every evaluation returns a value that exports to `val`; its
state counts the evaluations. -/
def constVM (val : GoValue) : JavaScriptVM Nat :=
  ⟨fun n _ => (.ok ⟨.ok val, "[object Object]"⟩, n + 1), fun _ => "vm"⟩

/-- A workbook file with the one sheet `sheet`, at every path. -/
def oneSheet (sheet : Sheet) : String → Except String (List Sheet) :=
  fun _ => .ok [sheet]

/-- A VM whose first `n` evaluations return a value that exports to `val` and
whose later evaluations throw; its state counts the evaluations. -/
def failAfter (n : Nat) (val : GoValue) : JavaScriptVM Nat :=
  ⟨fun k _ => (if k < n then .ok ⟨.ok val, "[object Object]"⟩ else .error "ReferenceError", k + 1),
    fun _ => "vm"⟩

/-! ## The loop over the rows -/

theorem scanNames_append (pre rest : List Row) (rowNo : Nat) (names : List String) :
    scanNames rowNo (pre ++ rest) names =
      scanNames (rowNo + pre.length) rest (scanNames rowNo pre names) := by
  induction pre generalizing rowNo names with
  | nil => simp [scanNames]
  | cons row pre ih =>
    show scanNames (rowNo + 1) (pre ++ rest) _ = _
    rw [ih, List.length_cons]
    congr 1
    omega

theorem namesAt_succ (sheet : Sheet) (i : Nat) (h : i < sheet.length) :
    namesAt sheet (i + 1) = (rowCells i (sheet.getD i []) (namesAt sheet i)).1 := by
  unfold namesAt
  have hsplit : sheet.take (i + 1) = sheet.take i ++ [sheet.getD i []] := by
    rw [List.take_succ]
    congr 1
    simp [List.getD, List.getElem?_eq_getElem h]
  rw [hsplit, scanNames_append]
  simp [scanNames, List.length_take, Nat.min_eq_left (Nat.le_of_lt h)]

theorem blobsFrom_length (rows : List Row) (rowNo : Nat) (names : List String) :
    (blobsFrom rowNo rows names).length = rows.length := by
  induction rows generalizing rowNo names with
  | nil => simp [blobsFrom]
  | cons row rest ih => simp [blobsFrom, ih]

theorem blobsFrom_getElem? (rest : List Row) :
    ∀ (pre : List Row) (j : Nat), j < rest.length →
      (blobsFrom pre.length rest (namesAt (pre ++ rest) pre.length))[j]? =
        some (recordAt (pre ++ rest) (pre.length + j)) := by
  induction rest with
  | nil => intro pre j hj; simp at hj
  | cons row rest ih =>
    intro pre j hj
    cases j with
    | zero =>
      simp [blobsFrom, recordAt, List.getD, List.getElem_append_right]
    | succ j =>
      have hj1 : j < rest.length := by simpa using hj
      have h := ih (pre ++ [row]) j hj1
      simp only [List.append_assoc, List.singleton_append, List.length_append,
        List.length_singleton] at h
      have hn : namesAt (pre ++ row :: rest) (pre.length + 1) =
          (rowCells pre.length row (namesAt (pre ++ row :: rest) pre.length)).1 := by
        rw [namesAt_succ _ _ (by simp)]
        simp [List.getD, List.getElem_append_right]
      rw [hn] at h
      simp only [blobsFrom, List.getElem?_cons_succ]
      rw [h]
      congr 2
      omega

theorem sheetLoop_no_callback {σ : Type} (js : JavaScriptVM σ) (rows : List Row) :
    ∀ (rowNo : Nat) (names output : List String) (vm : σ) (evals : List String), 0 < rowNo →
      sheetLoop js "" rowNo rows names output vm evals =
        ⟨.returned (output ++ (blobsFrom rowNo rows names).map stringMapText) none, vm, evals⟩ := by
  induction rows with
  | nil => intro rowNo names output vm evals _; simp [sheetLoop, blobsFrom]
  | cons row rest ih =>
    intro rowNo names output vm evals h
    simp only [sheetLoop, h, if_true, transformRow, marshalStringMap, blobsFrom]
    simp [ih (rowNo + 1) _ _ vm evals (Nat.succ_pos _)]

theorem processSheet_no_callback {σ : Type} (js : JavaScriptVM σ) (vm : σ) (sheet : Sheet) :
    processSheet js vm "" sheet =
      ⟨.returned (((blobsFrom 0 sheet []).drop 1).map stringMapText) none, vm, []⟩ := by
  cases sheet with
  | nil => simp [processSheet, sheetLoop, blobsFrom]
  | cons header rows =>
    simp [processSheet, sheetLoop, blobsFrom, sheetLoop_no_callback]

theorem blobsFrom_zero_getElem? (sheet : Sheet) (i : Nat) (h : i < sheet.length) :
    (blobsFrom 0 sheet [])[i]? = some (recordAt sheet i) := by
  have := blobsFrom_getElem? sheet [] i h
  simpa [namesAt, scanNames] using this

/-! ## Maps -/

theorem mapGet_mapSet {β : Type} (key k : String) (v : β) (m : List (String × β)) :
    mapGet key (mapSet k v m) = if key = k then some v else mapGet key m := by
  induction m with
  | nil => simp [mapSet, mapGet]
  | cons kv rest ih =>
    obtain ⟨k1, v1⟩ := kv
    by_cases h1 : k = k1
    · subst h1
      by_cases h2 : key = k <;> simp [mapSet, mapGet, h2]
    · by_cases h2 : keyLt k k1 = true
      · by_cases h3 : key = k <;> simp [mapSet, mapGet, h1, h2, h3]
      · by_cases h3 : key = k
        · subst h3
          simp [mapSet, mapGet, h1, h2, ih]
        · simp [mapSet, mapGet, h1, h2, h3, ih]

theorem mapGet_mapSetAll_of_not_mem {β : Type} (key : String) (kvs : List (String × β)) :
    ∀ m : List (String × β), key ∉ kvs.map Prod.fst →
      mapGet key (mapSetAll m kvs) = mapGet key m := by
  induction kvs with
  | nil => intro m _; rfl
  | cons kv rest ih =>
    intro m h
    simp only [List.map_cons, List.mem_cons, not_or] at h
    show mapGet key (mapSetAll (mapSet kv.1 kv.2 m) rest) = _
    rw [ih _ h.2, mapGet_mapSet, if_neg h.1]

theorem mapGet_mapSetAll_last {β : Type} (key : String) (v : β) (l1 l2 : List (String × β))
    (m : List (String × β)) (h : key ∉ l2.map Prod.fst) :
    mapGet key (mapSetAll m (l1 ++ (key, v) :: l2)) = some v := by
  unfold mapSetAll
  rw [List.foldl_append, List.foldl_cons]
  exact (mapGet_mapSetAll_of_not_mem key l2 _ h).trans (by simp [mapGet_mapSet])

theorem mapGet_isSome_mapSetAll {β : Type} (key : String) (kvs : List (String × β)) :
    ∀ m : List (String × β), (mapGet key (mapSetAll m kvs)).isSome = true ↔
      ((mapGet key m).isSome = true ∨ key ∈ kvs.map Prod.fst) := by
  induction kvs with
  | nil => intro m; simp [mapSetAll]
  | cons kv rest ih =>
    intro m
    show (mapGet key (mapSetAll (mapSet kv.1 kv.2 m) rest)).isSome = true ↔ _
    rw [ih, mapGet_mapSet]
    by_cases h : key = kv.1
    · simp [h]
    · simp [h]

theorem mapGet_isSome_iff_mem_keys {β : Type} (key : String) (m : List (String × β)) :
    (mapGet key m).isSome = true ↔ key ∈ mapKeys m := by
  induction m with
  | nil => simp [mapGet, mapKeys]
  | cons kv rest ih =>
    obtain ⟨k1, v1⟩ := kv
    by_cases h : key = k1
    · simp [mapGet, mapKeys, h]
    · simpa [mapGet, mapKeys, h] using ih

/-! ## The loop over the cells of a row -/

theorem cellStep_extends (rowNo colNo : Nat) (cell : String)
    (st : List String × List (String × String)) :
    st.1 <+: (cellStep rowNo colNo cell st).1 := by
  unfold cellStep
  split
  · exact List.prefix_append _ _
  · split
    · exact List.prefix_refl _
    · exact List.prefix_append _ _

theorem cellLoop_extends (rowNo : Nat) (cells : List String) :
    ∀ (colNo : Nat) (st : List String × List (String × String)),
      st.1 <+: (cellLoop rowNo colNo cells st).1 := by
  induction cells with
  | nil => intro colNo st; exact List.prefix_refl _
  | cons cell rest ih =>
    intro colNo st
    exact (cellStep_extends rowNo colNo cell st).trans (ih _ _)

theorem cellLoop_header (cells : List String) :
    ∀ (colNo : Nat) (st : List String × List (String × String)),
      cellLoop 0 colNo cells st = (st.1 ++ cells, st.2) := by
  induction cells with
  | nil => intro colNo st; simp [cellLoop]
  | cons cell rest ih =>
    intro colNo st
    simp [cellLoop, cellStep, ih]

theorem cellStep_length (rowNo colNo : Nat) (cell : String)
    (st : List String × List (String × String)) (h : colNo ≤ st.1.length) :
    colNo + 1 ≤ (cellStep rowNo colNo cell st).1.length := by
  unfold cellStep
  split
  · simp; omega
  · split
    · rename_i hlt
      exact hlt
    · simp; omega

theorem cellLoop_length (rowNo : Nat) (cells : List String) :
    ∀ (colNo : Nat) (st : List String × List (String × String)), colNo ≤ st.1.length →
      colNo + cells.length ≤ (cellLoop rowNo colNo cells st).1.length := by
  induction cells with
  | nil => intro colNo st h; simpa [cellLoop] using h
  | cons cell rest ih =>
    intro colNo st h
    have := ih (colNo + 1) _ (cellStep_length rowNo colNo cell st h)
    simp only [cellLoop, List.length_cons]
    omega

/-- The key line 96 or line 101 stores the cell at `colNo` under is the name
at `colNo` of the `columnNames` after the step. -/
theorem cellStep_data (rowNo colNo : Nat) (cell : String)
    (st : List String × List (String × String)) (hrow : 0 < rowNo) (h : colNo ≤ st.1.length) :
    ∃ key, (cellStep rowNo colNo cell st).1[colNo]? = some key ∧
      (cellStep rowNo colNo cell st).2 = mapSet key cell st.2 ∧
      (st.1.length ≤ colNo → key = columnName colNo ∧
        (cellStep rowNo colNo cell st).1 = st.1 ++ [columnName colNo]) ∧
      (colNo < st.1.length → (cellStep rowNo colNo cell st).1 = st.1) := by
  unfold cellStep
  rw [if_neg (by omega)]
  by_cases hc : colNo < st.1.length
  · rw [dif_pos hc]
    refine ⟨st.1.get ⟨colNo, hc⟩, ?_, rfl, ?_, ?_⟩
    · simp [List.getElem?_eq_getElem hc]
    · intro h2; omega
    · intro _; rfl
  · rw [dif_neg hc]
    have hlen : st.1.length = colNo := by omega
    refine ⟨columnName colNo, ?_, rfl, ?_, ?_⟩
    · show (st.1 ++ [columnName colNo])[colNo]? = _
      rw [← hlen]
      simp
    · intro _; exact ⟨rfl, rfl⟩
    · intro h2; omega

theorem getElem?_of_extends {α : Type} {l1 l2 : List α} (h : l1 <+: l2) {k : Nat} {a : α}
    (hk : l1[k]? = some a) : l2[k]? = some a := by
  obtain ⟨t, rfl⟩ := h
  have hlt : k < l1.length := by
    by_contra hge
    rw [List.getElem?_eq_none (by omega)] at hk
    cases hk
  rw [List.getElem?_append_left hlt]
  exact hk

/-- The record of a data row: the cells stored in column order under the
names the `columnNames` after the row have at their positions. -/
theorem cellLoop_record (rowNo : Nat) (hrow : 0 < rowNo) (cells : List String) :
    ∀ (colNo : Nat) (st : List String × List (String × String)), colNo ≤ st.1.length →
      (cellLoop rowNo colNo cells st).2 =
        mapSetAll st.2 (((cellLoop rowNo colNo cells st).1.drop colNo).zip cells) := by
  induction cells with
  | nil => intro colNo st _; simp [cellLoop, mapSetAll]
  | cons cell rest ih =>
    intro colNo st h
    obtain ⟨key, hkey, hblob, -, -⟩ := cellStep_data rowNo colNo cell st hrow h
    have hlen := cellStep_length rowNo colNo cell st h
    have hfinal : (cellLoop rowNo (colNo + 1) rest (cellStep rowNo colNo cell st)).1[colNo]? =
        some key := getElem?_of_extends (cellLoop_extends rowNo rest _ _) hkey
    have hlt : colNo < (cellLoop rowNo (colNo + 1) rest (cellStep rowNo colNo cell st)).1.length := by
      by_contra hge
      rw [List.getElem?_eq_none (by omega)] at hfinal
      cases hfinal
    have hget : (cellLoop rowNo (colNo + 1) rest (cellStep rowNo colNo cell st)).1[colNo] = key := by
      rw [List.getElem?_eq_getElem hlt] at hfinal
      exact Option.some.inj hfinal
    simp only [cellLoop]
    rw [ih (colNo + 1) _ hlen, List.drop_eq_getElem_cons hlt, hget, List.zip_cons_cons, hblob]
    rfl

/-! ## The key order -/

theorem char_eq_of_toNat_eq (a b : Char) (h : a.toNat = b.toNat) : a = b := by
  apply Char.ext
  apply UInt32.ext
  exact h

theorem ltChars_irrefl (a : List Char) : ltChars a a = false := by
  induction a with
  | nil => rfl
  | cons x xs ih => simp [ltChars, ih]

theorem ltChars_total (a : List Char) :
    ∀ b : List Char, a ≠ b → ltChars a b = false → ltChars b a = true := by
  induction a with
  | nil =>
    intro b hne h
    cases b with
    | nil => exact absurd rfl hne
    | cons y ys => simp [ltChars] at h
  | cons x xs ih =>
    intro b hne h
    cases b with
    | nil => rfl
    | cons y ys =>
      unfold ltChars at h ⊢
      by_cases h1 : x.toNat < y.toNat
      · simp [h1] at h
      · by_cases h2 : y.toNat < x.toNat
        · simp [h2]
        · have hxy : x = y := char_eq_of_toNat_eq x y (by omega)
          subst hxy
          simp only [h1, if_false] at h ⊢
          exact ih ys (fun e => hne (by rw [e])) h

theorem ltChars_trans (a : List Char) :
    ∀ b c : List Char, ltChars a b = true → ltChars b c = true → ltChars a c = true := by
  induction a with
  | nil =>
    intro b c hab hbc
    cases c with
    | nil => cases b <;> simp [ltChars] at hbc
    | cons z zs => rfl
  | cons x xs ih =>
    intro b c hab hbc
    cases b with
    | nil => simp [ltChars] at hab
    | cons y ys =>
      cases c with
      | nil => simp [ltChars] at hbc
      | cons z zs =>
        unfold ltChars at hab hbc ⊢
        by_cases h1 : x.toNat < y.toNat
        · by_cases h2 : y.toNat < z.toNat
          · simp [show x.toNat < z.toNat by omega]
          · by_cases h3 : z.toNat < y.toNat
            · simp [h2, h3] at hbc
            · simp [show x.toNat < z.toNat by omega]
        · by_cases h1b : y.toNat < x.toNat
          · simp [h1, h1b] at hab
          · simp only [h1, h1b, if_false] at hab
            by_cases h2 : y.toNat < z.toNat
            · simp [show x.toNat < z.toNat by omega]
            · by_cases h3 : z.toNat < y.toNat
              · simp [h2, h3] at hbc
              · simp only [h2, h3, if_false] at hbc
                simp only [show ¬ x.toNat < z.toNat by omega, show ¬ z.toNat < x.toNat by omega,
                  if_false]
                exact ih ys zs hab hbc

theorem keyLt_irrefl (a : String) : keyLt a a = false := ltChars_irrefl _

theorem keyLt_total (a b : String) (hne : a ≠ b) (h : keyLt a b = false) : keyLt b a = true :=
  ltChars_total _ _ (fun e => hne (String.ext e)) h

theorem keyLt_trans (a b c : String) (hab : keyLt a b = true) (hbc : keyLt b c = true) :
    keyLt a c = true := ltChars_trans _ _ _ hab hbc

theorem mem_mapSet {β : Type} (x : String × β) (k : String) (v : β) (m : List (String × β))
    (h : x ∈ mapSet k v m) : x = (k, v) ∨ x ∈ m := by
  induction m with
  | nil => simpa [mapSet] using h
  | cons kv rest ih =>
    obtain ⟨k1, v1⟩ := kv
    unfold mapSet at h
    split at h
    · rcases List.mem_cons.1 h with h | h
      · exact Or.inl h
      · exact Or.inr (List.mem_cons_of_mem _ h)
    · split at h
      · rcases List.mem_cons.1 h with h | h
        · exact Or.inl h
        · exact Or.inr h
      · rcases List.mem_cons.1 h with h | h
        · exact Or.inr (by rw [h]; exact List.mem_cons_self _ _)
        · rcases ih h with h | h
          · exact Or.inl h
          · exact Or.inr (List.mem_cons_of_mem _ h)

theorem keyOrdered_mapSet {β : Type} (k : String) (v : β) (m : List (String × β))
    (h : KeyOrdered m) : KeyOrdered (mapSet k v m) := by
  induction m with
  | nil => simp [mapSet, KeyOrdered]
  | cons kv rest ih =>
    obtain ⟨k1, v1⟩ := kv
    unfold KeyOrdered at h ih ⊢
    rw [List.pairwise_cons] at h
    unfold mapSet
    by_cases h1 : k = k1
    · subst h1
      rw [if_pos rfl, List.pairwise_cons]
      exact h
    · rw [if_neg h1]
      by_cases h2 : keyLt k k1 = true
      · rw [if_pos h2, List.pairwise_cons, List.pairwise_cons]
        refine ⟨?_, h⟩
        intro x hx
        rcases List.mem_cons.1 hx with hx | hx
        · rw [hx]; exact h2
        · exact keyLt_trans _ _ _ h2 (h.1 x hx)
      · rw [if_neg h2, List.pairwise_cons]
        refine ⟨?_, ih h.2⟩
        intro x hx
        rcases mem_mapSet x k v rest hx with hx | hx
        · rw [hx]
          exact keyLt_total k k1 h1 (by simpa using h2)
        · exact h.1 x hx

theorem keyOrdered_mapSetAll {β : Type} (kvs : List (String × β)) :
    ∀ m : List (String × β), KeyOrdered m → KeyOrdered (mapSetAll m kvs) := by
  induction kvs with
  | nil => intro m h; exact h
  | cons kv rest ih => intro m h; exact ih _ (keyOrdered_mapSet kv.1 kv.2 m h)

theorem nodup_keys_of_keyOrdered {β : Type} (m : List (String × β)) (h : KeyOrdered m) :
    (mapKeys m).Nodup := by
  unfold mapKeys KeyOrdered at *
  rw [List.Nodup, List.pairwise_map]
  refine h.imp ?_
  intro a b hab heq
  rw [heq, keyLt_irrefl] at hab
  cases hab

/-! ## Decimal numerals -/

theorem digitChar_value (m : Nat) (h : m < 10) : (Nat.digitChar m).toNat - 48 = m := by
  interval_cases m <;> rfl

theorem toDigitsCore_value (fuel : Nat) :
    ∀ n : Nat, n < fuel →
      ∃ l : List Char, (∀ ds, Nat.toDigitsCore 10 fuel n ds = l ++ ds) ∧ digitsValue l = n := by
  induction fuel with
  | zero => intro n h; omega
  | succ fuel ih =>
    intro n h
    by_cases h0 : n / 10 = 0
    · refine ⟨[Nat.digitChar (n % 10)], ?_, ?_⟩
      · intro ds
        simp [Nat.toDigitsCore, h0]
      · have hn : n % 10 = n := by omega
        have hd := digitChar_value (n % 10) (Nat.mod_lt _ (by decide))
        rw [hn] at hd ⊢
        simpa [digitsValue] using hd
    · obtain ⟨l, hl, hv⟩ := ih (n / 10) (by omega)
      refine ⟨l ++ [Nat.digitChar (n % 10)], ?_, ?_⟩
      · intro ds
        simp [Nat.toDigitsCore, h0, hl]
      · unfold digitsValue at hv ⊢
        rw [List.foldl_append, hv]
        simp [digitChar_value (n % 10) (Nat.mod_lt _ (by decide))]
        omega

theorem toString_nat_injective (a b : Nat) (h : toString a = toString b) : a = b := by
  have h1 : Nat.toDigits 10 a = Nat.toDigits 10 b := by
    have : (Nat.toDigits 10 a).asString = (Nat.toDigits 10 b).asString := h
    exact congrArg String.data this
  obtain ⟨la, hla, hva⟩ := toDigitsCore_value (a + 1) a (Nat.lt_succ_self _)
  obtain ⟨lb, hlb, hvb⟩ := toDigitsCore_value (b + 1) b (Nat.lt_succ_self _)
  unfold Nat.toDigits at h1
  rw [hla, hlb] at h1
  simp only [List.append_nil] at h1
  rw [← hva, ← hvb, h1]

theorem columnName_injective (a b : Nat) (h : columnName a = columnName b) : a = b := by
  unfold columnName at h
  have h1 : ("column_" ++ toString (a + 1)).data = ("column_" ++ toString (b + 1)).data := by
    rw [h]
  simp only [String.data_append, List.append_cancel_left_eq] at h1
  have h2 : toString (a + 1) = toString (b + 1) := String.ext h1
  have := toString_nat_injective _ _ h2
  omega

/-! ## Lists of pairs -/

theorem mem_map_fst_zip {α β : Type} (a : α) (l1 : List α) :
    ∀ l2 : List β, a ∈ (l1.zip l2).map Prod.fst ↔ ∃ c, c < l2.length ∧ l1[c]? = some a := by
  induction l1 with
  | nil => intro l2; simp
  | cons x xs ih =>
    intro l2
    cases l2 with
    | nil => simp
    | cons y ys =>
      simp only [List.zip_cons_cons, List.map_cons, List.mem_cons, ih, List.length_cons]
      constructor
      · rintro (h | ⟨c, hc, hget⟩)
        · exact ⟨0, by omega, by simp [h]⟩
        · exact ⟨c + 1, by omega, by simpa using hget⟩
      · rintro ⟨c, hc, hget⟩
        cases c with
        | zero => left; simpa using hget.symm
        | succ c => right; exact ⟨c, by omega, by simpa using hget⟩

theorem zip_split {α β : Type} (k : Nat) :
    ∀ (l1 : List α) (l2 : List β) (h1 : k < l1.length) (h2 : k < l2.length),
      l1.zip l2 = (l1.take k).zip (l2.take k) ++
        (l1.get ⟨k, h1⟩, l2.get ⟨k, h2⟩) :: (l1.drop (k + 1)).zip (l2.drop (k + 1)) := by
  induction k with
  | zero =>
    intro l1 l2 h1 h2
    cases l1 with
    | nil => simp at h1
    | cons x xs =>
      cases l2 with
      | nil => simp at h2
      | cons y ys => simp
  | succ k ih =>
    intro l1 l2 h1 h2
    cases l1 with
    | nil => simp at h1
    | cons x xs =>
      cases l2 with
      | nil => simp at h2
      | cons y ys =>
        have := ih xs ys (by simpa using h1) (by simpa using h2)
        simp only [List.zip_cons_cons, List.take_succ_cons, List.drop_succ_cons, List.cons_append,
          List.get_cons_succ]
        rw [this]

/-! ## The column names and the record at a row -/

theorem rowCells_extends (rowNo : Nat) (row : Row) (names : List String) :
    names <+: (rowCells rowNo row names).1 :=
  cellLoop_extends rowNo row 0 (names, [])

theorem rowCells_length (rowNo : Nat) (row : Row) (names : List String) :
    row.length ≤ (rowCells rowNo row names).1.length := by
  have := cellLoop_length rowNo row 0 (names, []) (Nat.zero_le _)
  simpa [rowCells] using this

theorem rowCells_record (rowNo : Nat) (hrow : 0 < rowNo) (row : Row) (names : List String) :
    (rowCells rowNo row names).2 = mapSetAll [] ((rowCells rowNo row names).1.zip row) := by
  have := cellLoop_record rowNo hrow row 0 (names, []) (Nat.zero_le _)
  simpa [rowCells] using this

theorem namesAt_of_length_le (sheet : Sheet) (i : Nat) (h : sheet.length ≤ i) :
    namesAt sheet i = namesAt sheet sheet.length := by
  unfold namesAt
  rw [List.take_of_length_le h, List.take_length]

theorem namesAt_extends_succ (sheet : Sheet) (i : Nat) :
    namesAt sheet i <+: namesAt sheet (i + 1) := by
  by_cases h : i < sheet.length
  · rw [namesAt_succ sheet i h]
    exact rowCells_extends _ _ _
  · rw [namesAt_of_length_le sheet i (by omega), namesAt_of_length_le sheet (i + 1) (by omega)]

theorem namesAt_extends (sheet : Sheet) (i j : Nat) (h : i ≤ j) :
    namesAt sheet i <+: namesAt sheet j := by
  induction j with
  | zero =>
    have : i = 0 := by omega
    subst this
    exact List.prefix_refl _
  | succ j ih =>
    by_cases hij : i = j + 1
    · subst hij
      exact List.prefix_refl _
    · exact (ih (by omega)).trans (namesAt_extends_succ sheet j)

theorem namesAt_length (sheet : Sheet) (i j : Nat) (hj : j < sheet.length) (hji : j < i) :
    (sheet.getD j []).length ≤ (namesAt sheet i).length := by
  have h1 : (sheet.getD j []).length ≤ (namesAt sheet (j + 1)).length := by
    rw [namesAt_succ sheet j hj]
    exact rowCells_length _ _ _
  exact h1.trans (namesAt_extends sheet (j + 1) i hji).length_le

theorem recordAt_eq (sheet : Sheet) (i : Nat) (hi : 0 < i) (h : i < sheet.length) :
    recordAt sheet i = mapSetAll [] ((namesAt sheet (i + 1)).zip (sheet.getD i [])) := by
  unfold recordAt
  rw [rowCells_record i hi, namesAt_succ sheet i h]

theorem namesAt_one (header : Row) (rows : List Row) :
    namesAt (header :: rows) 1 = header := by
  simp [namesAt, scanNames, rowCells, cellLoop_header]

/-! ## Synthesized names -/

theorem cellStep_synthesized (H rowNo colNo : Nat) (cell : String)
    (st : List String × List (String × String)) (hrow : 0 < rowNo) (h : colNo ≤ st.1.length)
    (hs : Synthesized H st.1) : Synthesized H (cellStep rowNo colNo cell st).1 := by
  obtain ⟨key, -, -, hge, hlt⟩ := cellStep_data rowNo colNo cell st hrow h
  by_cases hc : colNo < st.1.length
  · rw [hlt hc]
    exact hs
  · rw [(hge (by omega)).2]
    intro k name hk hget
    by_cases hkl : k < st.1.length
    · rw [List.getElem?_append_left hkl] at hget
      exact hs k name hk hget
    · by_cases hke : k = st.1.length
      · subst hke
        have hcol : colNo = st.1.length := by omega
        have hname : name = columnName colNo := by simpa using hget.symm
        rw [hname, hcol]
      · rw [List.getElem?_eq_none (by simp; omega)] at hget
        cases hget

theorem cellLoop_synthesized (H rowNo : Nat) (hrow : 0 < rowNo) (cells : List String) :
    ∀ (colNo : Nat) (st : List String × List (String × String)), colNo ≤ st.1.length →
      Synthesized H st.1 → Synthesized H (cellLoop rowNo colNo cells st).1 := by
  induction cells with
  | nil => intro colNo st _ hs; exact hs
  | cons cell rest ih =>
    intro colNo st h hs
    exact ih (colNo + 1) _ (cellStep_length rowNo colNo cell st h)
      (cellStep_synthesized H rowNo colNo cell st hrow h hs)

theorem namesAt_synthesized (sheet : Sheet) (i : Nat) (hi : 1 ≤ i) :
    Synthesized (sheet.getD 0 []).length (namesAt sheet i) := by
  induction i with
  | zero => omega
  | succ i ih =>
    by_cases h0 : i = 0
    · subst h0
      cases sheet with
      | nil => intro k name _ hget; simp [namesAt, scanNames] at hget
      | cons header rows =>
        rw [namesAt_one]
        intro k name hk hget
        rw [List.getElem?_eq_none (by simpa [List.getD] using hk)] at hget
        cases hget
    · have ih1 := ih (by omega)
      by_cases hlt : i < sheet.length
      · rw [namesAt_succ sheet i hlt]
        exact cellLoop_synthesized _ i (by omega) _ 0 (namesAt sheet i, []) (Nat.zero_le _) ih1
      · rw [namesAt_of_length_le sheet (i + 1) (by omega)]
        rw [namesAt_of_length_le sheet i (by omega)] at ih1
        exact ih1

theorem recordAt_overflow (sheet : Sheet) (i k : Nat) (hi : 1 ≤ i) (hlt : i < sheet.length)
    (hk : k < (sheet.getD i []).length) (hH : (sheet.getD 0 []).length ≤ k) :
    mapGet (columnName k) (recordAt sheet i) = (sheet.getD i [])[k]? := by
  have hsyn := namesAt_synthesized sheet (i + 1) (by omega)
  have hlen : (sheet.getD i []).length ≤ (namesAt sheet (i + 1)).length :=
    namesAt_length sheet (i + 1) i hlt (by omega)
  have hk1 : k < (namesAt sheet (i + 1)).length := by omega
  have hname : (namesAt sheet (i + 1)).get ⟨k, hk1⟩ = columnName k :=
    hsyn k _ hH (by simp [List.getElem?_eq_getElem hk1])
  rw [recordAt_eq sheet i (by omega) hlt, zip_split k _ _ hk1 hk, hname,
    mapGet_mapSetAll_last, List.getElem?_eq_getElem hk]
  · rfl
  · intro hmem
    obtain ⟨c, -, hget⟩ := (mem_map_fst_zip _ _ _).1 hmem
    rw [List.getElem?_drop] at hget
    have := columnName_injective _ _ (hsyn (k + 1 + c) _ (by omega) hget)
    omega

/-! ## Colliding names -/

theorem recordAt_keyOrdered (sheet : Sheet) (i : Nat) (hi : 1 ≤ i) (hlt : i < sheet.length) :
    KeyOrdered (recordAt sheet i) := by
  rw [recordAt_eq sheet i (by omega) hlt]
  exact keyOrdered_mapSetAll _ [] List.Pairwise.nil

theorem recordAt_last_cell (sheet : Sheet) (i c : Nat) (name : String) (hi : 1 ≤ i)
    (hlt : i < sheet.length) (hc : c < (sheet.getD i []).length)
    (hname : (namesAt sheet (i + 1))[c]? = some name)
    (hlast : ∀ c3, c < c3 → c3 < (sheet.getD i []).length →
      (namesAt sheet (i + 1))[c3]? ≠ some name) :
    mapGet name (recordAt sheet i) = (sheet.getD i [])[c]? := by
  have hlen : (sheet.getD i []).length ≤ (namesAt sheet (i + 1)).length :=
    namesAt_length sheet (i + 1) i hlt (by omega)
  have hc1 : c < (namesAt sheet (i + 1)).length := by omega
  have hget : (namesAt sheet (i + 1)).get ⟨c, hc1⟩ = name := by
    rw [List.getElem?_eq_getElem hc1] at hname
    exact Option.some.inj hname
  rw [recordAt_eq sheet i (by omega) hlt, zip_split c _ _ hc1 hc, hget,
    mapGet_mapSetAll_last, List.getElem?_eq_getElem hc]
  · rfl
  · intro hmem
    obtain ⟨d, hd, hgetd⟩ := (mem_map_fst_zip _ _ _).1 hmem
    rw [List.getElem?_drop] at hgetd
    rw [List.length_drop] at hd
    exact hlast (c + 1 + d) (by omega) (by omega) hgetd

theorem length_lt_of_collision (ks : List String) (keys : List String) (c1 c2 : Nat)
    (name : String) (h12 : c1 < c2) (h1 : ks[c1]? = some name) (h2 : ks[c2]? = some name)
    (hnodup : keys.Nodup) (hsub : keys ⊆ ks) : keys.length < ks.length := by
  have hnot : ¬ ks.Nodup := by
    intro hn
    have := (List.nodup_iff_getElem?_ne_getElem?.1 hn) c1 c2 h12 (by
      by_contra hge
      rw [List.getElem?_eq_none (by omega)] at h2
      cases h2)
    exact this (h1.trans h2.symm)
  have hdedup : ks.dedup.length < ks.length := by
    by_contra hge
    have heq := (List.dedup_sublist ks).eq_of_length_le (by omega)
    exact hnot (List.dedup_eq_self.1 heq)
  have hsub2 : keys ⊆ ks.dedup := fun x hx => List.mem_dedup.2 (hsub hx)
  have := (hnodup.subperm hsub2).length_le
  omega

/-! ## Reaching a row -/

theorem reach_append {σ : Type} (js : JavaScriptVM σ) (cb : String) (pre rest : List Row) :
    ∀ (rowNo : Nat) (st : LoopState σ),
      reach js cb rowNo (pre ++ rest) st =
        (reach js cb rowNo pre st).bind (reach js cb (rowNo + pre.length) rest) := by
  induction pre with
  | nil => intro rowNo st; simp [reach]
  | cons row pre ih =>
    intro rowNo st
    have hidx : rowNo + 1 + pre.length = rowNo + (row :: pre).length := by
      simp only [List.length_cons]; omega
    show reach js cb rowNo (row :: (pre ++ rest)) st = _
    simp only [reach]
    split
    · split
      · rw [ih, hidx]
      · rfl
      · rfl
    · rw [ih, hidx]

theorem reach_sheetLoop {σ : Type} (js : JavaScriptVM σ) (cb : String) (pre rest : List Row) :
    ∀ (rowNo : Nat) (st st1 : LoopState σ), reach js cb rowNo pre st = some st1 →
      sheetLoop js cb rowNo (pre ++ rest) st.columnNames st.output st.vm st.evals =
        sheetLoop js cb (rowNo + pre.length) rest st1.columnNames st1.output st1.vm st1.evals := by
  induction pre with
  | nil =>
    intro rowNo st st1 h
    simp only [reach, Option.some.injEq] at h
    subst h
    rfl
  | cons row pre ih =>
    intro rowNo st st1 h
    have hidx : rowNo + 1 + pre.length = rowNo + (row :: pre).length := by
      simp only [List.length_cons]; omega
    show sheetLoop js cb rowNo (row :: (pre ++ rest)) _ _ _ _ = _
    simp only [reach] at h
    simp only [sheetLoop]
    split at h
    · rename_i hpos
      rw [if_pos hpos]
      split at h
      · rw [← hidx]
        exact ih _ _ _ h
      · cases h
      · cases h
    · rename_i hpos
      rw [if_neg hpos, ← hidx]
      exact ih _ _ _ h

theorem reach_columnNames {σ : Type} (js : JavaScriptVM σ) (cb : String) (pre : List Row) :
    ∀ (rowNo : Nat) (st st1 : LoopState σ), reach js cb rowNo pre st = some st1 →
      st1.columnNames = scanNames rowNo pre st.columnNames := by
  induction pre with
  | nil =>
    intro rowNo st st1 h
    simp only [reach, Option.some.injEq] at h
    subst h
    rfl
  | cons row pre ih =>
    intro rowNo st st1 h
    simp only [reach] at h
    simp only [scanNames]
    split at h
    · split at h
      · exact ih _ _ _ h
      · cases h
      · cases h
    · exact ih _ _ _ h

theorem stateAt_columnNames {σ : Type} (js : JavaScriptVM σ) (vm : σ) (cb : String)
    (sheet : Sheet) (i : Nat) (st : LoopState σ) (h : stateAt js vm cb sheet i = some st) :
    st.columnNames = namesAt sheet i :=
  reach_columnNames js cb _ 0 _ st h

theorem drop_eq_getD_cons (sheet : Sheet) (i : Nat) (h : i < sheet.length) :
    sheet.drop i = sheet.getD i [] :: sheet.drop (i + 1) := by
  rw [List.drop_eq_getElem_cons h]
  simp [List.getD, List.getElem?_eq_getElem h]

/-- From the state in which row `i` is reached, `processSheet` goes on with the
loop over the rows from `i` on. -/
theorem processSheet_from {σ : Type} (js : JavaScriptVM σ) (vm : σ) (cb : String) (sheet : Sheet)
    (i : Nat) (st : LoopState σ) (hi : i ≤ sheet.length)
    (h : stateAt js vm cb sheet i = some st) :
    processSheet js vm cb sheet =
      sheetLoop js cb i (sheet.drop i) st.columnNames st.output st.vm st.evals := by
  have := reach_sheetLoop js cb (sheet.take i) (sheet.drop i) 0 ⟨[], [], vm, []⟩ st h
  rw [List.take_append_drop, List.length_take, Nat.min_eq_left hi, Nat.zero_add] at this
  exact this

/-- A data row that is reached and ends in an error: `processSheet` returns the
entries of the rows before it with that error. -/
theorem processSheet_fail_at {σ : Type} (js : JavaScriptVM σ) (vm : σ) (cb : String)
    (sheet : Sheet) (i : Nat) (st : LoopState σ) (err : String) (hi : 1 ≤ i)
    (hlt : i < sheet.length) (h : stateAt js vm cb sheet i = some st)
    (hres : (rowExec js cb sheet i st).result = .fail err) :
    processSheet js vm cb sheet =
      ⟨.returned st.output (some err), (rowExec js cb sheet i st).vm,
        st.evals ++ (rowExec js cb sheet i st).evals⟩ := by
  rw [processSheet_from js vm cb sheet i st (Nat.le_of_lt hlt) h, drop_eq_getD_cons sheet i hlt]
  have hn := stateAt_columnNames js vm cb sheet i st h
  unfold rowExec recordAt at hres
  simp only [sheetLoop, if_pos (show i > 0 by omega), hn, hres]
  rfl

/-- A data row that is reached and ends in the nil dereference: `processSheet` panics. -/
theorem processSheet_panic_at {σ : Type} (js : JavaScriptVM σ) (vm : σ) (cb : String)
    (sheet : Sheet) (i : Nat) (st : LoopState σ) (msg : String) (hi : 1 ≤ i)
    (hlt : i < sheet.length) (h : stateAt js vm cb sheet i = some st)
    (hres : (rowExec js cb sheet i st).result = .panic msg) :
    processSheet js vm cb sheet =
      ⟨.panicked msg, (rowExec js cb sheet i st).vm,
        st.evals ++ (rowExec js cb sheet i st).evals⟩ := by
  rw [processSheet_from js vm cb sheet i st (Nat.le_of_lt hlt) h, drop_eq_getD_cons sheet i hlt]
  have hn := stateAt_columnNames js vm cb sheet i st h
  unfold rowExec recordAt at hres
  simp only [sheetLoop, if_pos (show i > 0 by omega), hn, hres]
  rfl

theorem take_succ_eq (sheet : Sheet) (i : Nat) (h : i < sheet.length) :
    sheet.take (i + 1) = sheet.take i ++ [sheet.getD i []] := by
  rw [List.take_succ]
  congr 1
  simp [List.getD, List.getElem?_eq_getElem h]

/-- A data row that is reached and gives an entry: the next row is reached with
the entry appended to the output. -/
theorem stateAt_succ_emit {σ : Type} (js : JavaScriptVM σ) (vm : σ) (cb : String)
    (sheet : Sheet) (i : Nat) (st : LoopState σ) (src : String) (hi : 1 ≤ i)
    (hlt : i < sheet.length) (h : stateAt js vm cb sheet i = some st)
    (hres : (rowExec js cb sheet i st).result = .emit src) :
    stateAt js vm cb sheet (i + 1) =
      some ⟨namesAt sheet (i + 1), st.output ++ [src], (rowExec js cb sheet i st).vm,
        st.evals ++ (rowExec js cb sheet i st).evals⟩ := by
  have hn := stateAt_columnNames js vm cb sheet i st h
  unfold stateAt at h ⊢
  rw [take_succ_eq sheet i hlt, reach_append, h]
  unfold rowExec recordAt at hres
  simp only [Option.some_bind, List.length_take, Nat.min_eq_left (Nat.le_of_lt hlt), Nat.zero_add,
    reach, if_pos (show i > 0 by omega), hn, hres]
  rw [namesAt_succ sheet i hlt]
  rfl

/-- The last row passed without a return: `processSheet` returns the output
and no error. -/
theorem processSheet_done {σ : Type} (js : JavaScriptVM σ) (vm : σ) (cb : String)
    (sheet : Sheet) (st : LoopState σ) (h : stateAt js vm cb sheet sheet.length = some st) :
    processSheet js vm cb sheet = ⟨.returned st.output none, st.vm, st.evals⟩ := by
  rw [processSheet_from js vm cb sheet sheet.length st (Nat.le_refl _) h, List.drop_length]
  rfl

/-! ## One row through the transform -/

theorem transformRow_answer {σ : Type} (js : JavaScriptVM σ) (cb : String) (rowNo : Nat)
    (blob : List (String × String)) (vm vm1 : σ) (jsValue : Value) (val : GoValue) (src1 : String)
    (hcb : cb ≠ "")
    (hEval : js.Eval vm (jsSrc cb (stringMapText blob)) = (.ok jsValue, vm1))
    (hExport : jsValue.Export = .ok val) (hMarshal : marshalValue val = .ok src1) :
    transformRow js cb rowNo blob vm =
      ⟨match unmarshalResponse val with
        | .error err =>
          .fail ("row: " ++ toString rowNo ++ ", do not understand response " ++ src1 ++ ", " ++ err)
        | .ok none => .panic nilDereference
        | .ok (some response) =>
          if response.Error ≠ "" then .fail ("row: " ++ toString rowNo ++ ", " ++ response.Error)
          else
            match marshalSource response.Source with
            | .error err => .fail ("row: " ++ toString rowNo ++ ", " ++ err)
            | .ok src2 => .emit src2,
        vm1, [jsSrc cb (stringMapText blob)]⟩ := by
  unfold transformRow
  simp only [marshalStringMap, hcb, ne_eq, not_false_eq_true, if_true, hEval, hExport, hMarshal]
  cases hdec : unmarshalResponse val with
  | error err => rfl
  | ok r =>
    cases r with
    | none => rfl
    | some response =>
      by_cases herr : response.Error = ""
      · simp only [herr, not_true_eq_false, if_false]
        cases marshalSource response.Source <;> rfl
      · simp only [herr, not_false_eq_true, if_true]

theorem transformRow_evals_length {σ : Type} (js : JavaScriptVM σ) (cb : String) (rowNo : Nat)
    (blob : List (String × String)) (vm : σ) :
    (transformRow js cb rowNo blob vm).evals = (if cb = "" then [] else [jsSrc cb (stringMapText blob)]) := by
  unfold transformRow
  simp only [marshalStringMap]
  by_cases hcb : cb = ""
  · simp [hcb]
  · simp only [hcb, ne_eq, not_false_eq_true, if_true, if_false]
    rcases hE : js.Eval vm (jsSrc cb (stringMapText blob)) with ⟨res, vm1⟩
    cases res with
    | error err => rfl
    | ok jsValue =>
      simp only
      cases jsValue.Export with
      | error err => rfl
      | ok val =>
        simp only
        cases marshalValue val with
        | error err => rfl
        | ok src1 =>
          simp only
          cases unmarshalResponse val with
          | error err => rfl
          | ok r =>
            cases r with
            | none => rfl
            | some response =>
              simp only
              by_cases herr : response.Error = ""
              · simp only [herr, not_true_eq_false, if_false]
                cases marshalSource response.Source <;> rfl
              · simp only [herr, not_false_eq_true, if_true]

/-! ## Run on a sheet -/

theorem Run_eq {σ : Type} (openFile : String → Except String (List Sheet)) (js : JavaScriptVM σ)
    (vm : σ) (path : String) (sheetNo : Int) (cb : String) (sheets : List Sheet) (sheet : Sheet)
    (hOpen : openFile path = .ok sheets) (hSheet : findSheet 0 sheets sheetNo = some sheet) :
    Run openFile js vm path sheetNo cb =
      ⟨match (processSheet js vm cb sheet).outcome with
        | .returned output none => .returned output none
        | .returned _ (some err) => .returned [] (some err)
        | .panicked msg => .panicked msg,
        (processSheet js vm cb sheet).vm, (processSheet js vm cb sheet).evals⟩ := by
  unfold Run
  simp only [hOpen, hSheet]
  rcases hout : (processSheet js vm cb sheet).outcome with ⟨output, err⟩ | msg
  · cases err <;> rfl
  · rfl

/-! ## Values `json.Marshal` accepts -/

theorem firstUnsupportedFields_eq_none (m : List (String × GoValue)) :
    firstUnsupportedFields m = none ↔ ∀ kv ∈ m, firstUnsupported kv.2 = none := by
  induction m with
  | nil => simp [firstUnsupportedFields]
  | cons kv rest ih =>
    obtain ⟨k, v⟩ := kv
    simp only [firstUnsupportedFields, List.mem_cons, forall_eq_or_imp]
    cases hv : firstUnsupported v with
    | none => simpa using ih
    | some w => simp

theorem firstUnsupportedFields_mapSet (k : String) (v : GoValue) (m : List (String × GoValue))
    (hv : firstUnsupported v = none) (hm : firstUnsupportedFields m = none) :
    firstUnsupportedFields (mapSet k v m) = none := by
  rw [firstUnsupportedFields_eq_none] at hm ⊢
  intro kv hkv
  rcases mem_mapSet kv k v m hkv with h | h
  · rw [h]; exact hv
  · exact hm kv h

theorem firstUnsupportedFields_mapSetAll (fs : List (String × GoValue)) :
    ∀ m : List (String × GoValue), firstUnsupportedFields m = none →
      firstUnsupportedFields fs = none → firstUnsupportedFields (mapSetAll m fs) = none := by
  induction fs with
  | nil => intro m hm _; exact hm
  | cons kv rest ih =>
    intro m hm hfs
    rw [firstUnsupportedFields_eq_none] at hfs
    have hkv := hfs kv (List.mem_cons_self _ _)
    have hrest : firstUnsupportedFields rest = none := by
      rw [firstUnsupportedFields_eq_none]
      exact fun x hx => hfs x (List.mem_cons_of_mem _ hx)
    exact ih _ (firstUnsupportedFields_mapSet kv.1 kv.2 m hkv hm) hrest

mutual
theorem canon_supported : ∀ v : GoValue, firstUnsupported v = none →
    firstUnsupported (canon v) = none
  | .null, h => h
  | .bool _, h => h
  | .number _ _, h => h
  | .string _, h => h
  | .unsupported _, h => h
  | .array items, h => by
    simp only [canon, firstUnsupported] at h ⊢
    exact canonItems_supported items h
  | .object fields, h => by
    simp only [canon, firstUnsupported] at h ⊢
    exact canonFields_supported fields h
theorem canonItems_supported : ∀ items : List GoValue, firstUnsupportedItems items = none →
    firstUnsupportedItems (canonItems items) = none
  | [], h => h
  | v :: rest, h => by
    simp only [canonItems, firstUnsupportedItems] at h ⊢
    cases hv : firstUnsupported v with
    | some w => simp [hv] at h
    | none =>
      rw [hv] at h
      rw [canon_supported v hv]
      exact canonItems_supported rest h
theorem canonFields_supported : ∀ fields : List (String × GoValue),
    firstUnsupportedFields fields = none → firstUnsupportedFields (canonFields fields) = none
  | [], h => h
  | (k, v) :: rest, h => by
    simp only [canonFields, firstUnsupportedFields] at h ⊢
    cases hv : firstUnsupported v with
    | some w => simp [hv] at h
    | none =>
      rw [hv] at h
      exact firstUnsupportedFields_mapSet k _ _ (canon_supported v hv)
        (canonFields_supported rest h)
end

/-! ## Decoding the response -/

mutual
theorem decodeInterface_supported : ∀ v : GoValue, firstUnsupported v = none →
    firstUnsupported (decodeInterface v) = none
  | .null, h => h
  | .bool _, h => h
  | .number _ _, _ => rfl
  | .string _, h => h
  | .unsupported _, h => h
  | .array items, h => by
    simp only [decodeInterface, firstUnsupported] at h ⊢
    exact decodeItems_supported items h
  | .object fields, h => by
    simp only [decodeInterface, firstUnsupported] at h ⊢
    exact decodeFields_supported fields h
theorem decodeItems_supported : ∀ items : List GoValue, firstUnsupportedItems items = none →
    firstUnsupportedItems (decodeItems items) = none
  | [], h => h
  | v :: rest, h => by
    simp only [decodeItems, firstUnsupportedItems] at h ⊢
    cases hv : firstUnsupported v with
    | some w => simp [hv] at h
    | none =>
      rw [hv] at h
      rw [decodeInterface_supported v hv]
      exact decodeItems_supported rest h
theorem decodeFields_supported : ∀ fields : List (String × GoValue),
    firstUnsupportedFields fields = none → firstUnsupportedFields (decodeFields fields) = none
  | [], h => h
  | (k, v) :: rest, h => by
    simp only [decodeFields, firstUnsupportedFields] at h ⊢
    cases hv : firstUnsupported v with
    | some w => simp [hv] at h
    | none =>
      rw [hv] at h
      rw [decodeInterface_supported v hv]
      exact decodeFields_supported rest h
end

theorem decodeMember_supported (st : jsResponse × Option String) (kv : String × GoValue)
    (hkv : firstUnsupported kv.2 = none) (h : SourceSupported st.1) :
    SourceSupported (decodeMember st kv).1 := by
  unfold decodeMember
  simp only
  split
  · exact h
  · split
    · intro m hm
      simp only [decodeSourceField] at hm
      split at hm
      · rename_i fs hfs
        simp only [Option.some.injEq] at hm
        rw [← hm]
        apply firstUnsupportedFields_mapSetAll (decodeFields fs)
        · cases hsrc : st.1.Source with
          | none => rfl
          | some m0 => exact h m0 hsrc
        · rw [hfs] at hkv
          exact decodeFields_supported fs (by simpa [firstUnsupported] using hkv)
      · cases hm
      · exact h m hm
    · split
      · exact h
      · exact h

theorem foldl_decodeMember_supported (fields : List (String × GoValue)) :
    ∀ st : jsResponse × Option String, firstUnsupportedFields fields = none →
      SourceSupported st.1 → SourceSupported (fields.foldl decodeMember st).1 := by
  induction fields with
  | nil => intro st _ h; exact h
  | cons kv rest ih =>
    intro st hf h
    rw [firstUnsupportedFields_eq_none] at hf
    have hrest : firstUnsupportedFields rest = none := by
      rw [firstUnsupportedFields_eq_none]
      exact fun x hx => hf x (List.mem_cons_of_mem _ hx)
    exact ih _ hrest (decodeMember_supported st kv (hf kv (List.mem_cons_self _ _)) h)

/-- The `Source` of a decoded response is written by `json.Marshal` without error. -/
theorem marshalSource_ok (val : GoValue) (src1 : String) (response : jsResponse)
    (hMarshal : marshalValue val = .ok src1)
    (hDecode : unmarshalResponse val = .ok (some response)) :
    ∃ src2, marshalSource response.Source = .ok src2 := by
  have hsup : firstUnsupported (canon val) = none := by
    unfold marshalValue at hMarshal
    cases h : firstUnsupported (canon val) with
    | none => rfl
    | some w => rw [h] at hMarshal; cases hMarshal
  have hresp : SourceSupported response := by
    unfold unmarshalResponse at hDecode
    split at hDecode
    · cases hDecode
    · rename_i fields hcanon
      rw [hcanon] at hsup
      have hall := foldl_decodeMember_supported fields (jsResponse.zero, none)
        (by simpa [firstUnsupported] using hsup) (by intro m hm; cases hm)
      split at hDecode
      · cases hDecode
      · rename_i r heq
        simp only [Except.ok.injEq, Option.some.injEq] at hDecode
        rw [heq] at hall
        rw [← hDecode]
        exact hall
    · cases hDecode
  cases hsrc : response.Source with
  | none => exact ⟨"null", rfl⟩
  | some m =>
    have hm := hresp m hsrc
    have := canon_supported (.object m) (by simpa [firstUnsupported] using hm)
    refine ⟨encodeValue (canon (.object m)), ?_⟩
    simp only [marshalSource, marshalValue, this]

/-- The response decoded from an object with the one member `source`. -/
theorem unmarshalResponse_source_only (val : GoValue) (fs : List (String × GoValue))
    (response : jsResponse) (hcanon : canon val = .object [("source", .object fs)])
    (hDecode : unmarshalResponse val = .ok (some response)) :
    response.Source = some (mapSetAll [] (decodeFields fs)) := by
  unfold unmarshalResponse at hDecode
  rw [hcanon] at hDecode
  have hfold : [("source", GoValue.object fs)].foldl decodeMember (jsResponse.zero, none) =
      (⟨"", some (mapSetAll [] (decodeFields fs)), ""⟩, none) := by
    have h1 : foldName "source" = "source" := by decide
    have h2 : ¬ ("source" = "path") := by decide
    simp only [List.foldl_cons, List.foldl_nil, decodeMember, h1, h2, if_false, if_true,
      decodeSourceField, firstError, jsResponse.zero, Option.getD_none]
    rfl
  simp only [hfold, Except.ok.injEq, Option.some.injEq] at hDecode
  rw [← hDecode]

/-! ## The output and the evaluations when a row is reached -/

theorem reach_lengths {σ : Type} (js : JavaScriptVM σ) (cb : String) (pre : List Row) :
    ∀ (rowNo : Nat) (st st1 : LoopState σ), reach js cb rowNo pre st = some st1 →
      st.output <+: st1.output ∧
      st1.output.length = st.output.length + dataRows rowNo pre.length ∧
      st1.evals.length =
        st.evals.length + (if cb = "" then 0 else dataRows rowNo pre.length) := by
  induction pre with
  | nil =>
    intro rowNo st st1 h
    simp only [reach, Option.some.injEq] at h
    subst h
    refine ⟨List.prefix_refl _, ?_, ?_⟩
    · simp [dataRows]
    · simp [dataRows]
  | cons row pre ih =>
    intro rowNo st st1 h
    simp only [reach] at h
    split at h
    · rename_i hpos
      split at h
      · obtain ⟨h1, h2, h3⟩ := ih _ _ _ h
        refine ⟨(List.prefix_append _ _).trans h1, ?_, ?_⟩
        · rw [h2]
          simp [dataRows, show rowNo ≠ 0 by omega]
          omega
        · rw [h3, List.length_append, transformRow_evals_length]
          by_cases hcb : cb = ""
          · simp [hcb]
          · simp [hcb, dataRows, show rowNo ≠ 0 by omega]
            omega
      · cases h
      · cases h
    · rename_i hpos
      obtain ⟨h1, h2, h3⟩ := ih _ _ _ h
      have h0 : rowNo = 0 := by omega
      subst h0
      refine ⟨h1, ?_, ?_⟩
      · rw [h2]
        simp [dataRows]
      · rw [h3]
        simp [dataRows]

theorem stateAt_lengths {σ : Type} (js : JavaScriptVM σ) (vm : σ) (cb : String) (sheet : Sheet)
    (i : Nat) (st : LoopState σ) (hi : i ≤ sheet.length)
    (h : stateAt js vm cb sheet i = some st) :
    st.output.length = i - 1 ∧ st.evals.length = (if cb = "" then 0 else i - 1) := by
  obtain ⟨-, h2, h3⟩ := reach_lengths js cb _ 0 _ st h
  simp only [List.length_nil, Nat.zero_add, List.length_take, Nat.min_eq_left hi, dataRows,
    if_true] at h2 h3
  exact ⟨h2, h3⟩

/-- The output when a later row is reached extends the output when a row is reached. -/
theorem stateAt_output_extends {σ : Type} (js : JavaScriptVM σ) (vm : σ) (cb : String)
    (sheet : Sheet) (i j : Nat) (si sj : LoopState σ) (hij : i ≤ j)
    (hi : stateAt js vm cb sheet i = some si) (hj : stateAt js vm cb sheet j = some sj) :
    si.output <+: sj.output := by
  unfold stateAt at hi hj
  have hsplit : sheet.take j = sheet.take i ++ (sheet.take j).drop i := by
    have := List.take_append_drop i (sheet.take j)
    rw [List.take_take, Nat.min_eq_left hij] at this
    exact this.symm
  rw [hsplit, reach_append, hi] at hj
  exact (reach_lengths js cb _ _ _ _ hj).1

/-! ## The shape gate -/

theorem firstError_isSome (saved new : Option String) :
    (firstError saved new).isSome = (saved.isSome || new.isSome) := by
  cases saved <;> simp [firstError]

theorem decodeMember_error (st : jsResponse × Option String) (kv : String × GoValue) :
    (decodeMember st kv).2.isSome = (st.2.isSome || badMember kv) := by
  obtain ⟨k, v⟩ := kv
  unfold decodeMember badMember
  by_cases h1 : foldName k = "path"
  · simp only [h1, if_true, true_or, firstError_isSome]
    cases v <;> simp [decodeStringField]
  · by_cases h2 : foldName k = "source"
    · simp only [h2, if_true, firstError_isSome,
        show ¬ ("source" = "path" ∨ "source" = "error") by decide, if_false,
        show ¬ ("source" = "path") by decide]
      cases v <;> simp [decodeSourceField]
    · by_cases h3 : foldName k = "error"
      · simp only [h3, if_true, or_true, firstError_isSome,
          show ¬ ("error" = "path") by decide, show ¬ ("error" = "source") by decide, if_false]
        cases v <;> simp [decodeStringField]
      · simp [h1, h2, h3]

theorem foldl_decodeMember_error (fields : List (String × GoValue)) :
    ∀ st : jsResponse × Option String,
      (fields.foldl decodeMember st).2.isSome = (st.2.isSome || fields.any badMember) := by
  induction fields with
  | nil => intro st; simp
  | cons kv rest ih =>
    intro st
    rw [List.foldl_cons, ih, decodeMember_error, List.any_cons, Bool.or_assoc]

/-- The shapes `json.Unmarshal` reports an error for are the rejected shapes. -/
theorem unmarshalResponse_error_iff (val : GoValue) :
    (∃ e, unmarshalResponse val = .error e) ↔ rejectedShape val = true := by
  unfold unmarshalResponse rejectedShape
  cases hc : canon val with
  | object fields =>
    simp only
    have h := foldl_decodeMember_error fields (jsResponse.zero, none)
    rcases hf : fields.foldl decodeMember (jsResponse.zero, none) with ⟨r, e⟩
    rw [hf] at h
    cases e with
    | none =>
      have h1 : fields.any badMember = false := by simpa using h.symm
      rw [h1]
      simp
    | some e =>
      have h1 : fields.any badMember = true := by simpa using h.symm
      rw [h1]
      simp
  | null => simp
  | bool b => simp
  | number t f => simp
  | string t => simp
  | array items => simp
  | unsupported w => simp

theorem unmarshalResponse_accepts (val : GoValue) (hrej : rejectedShape val = false)
    (hnull : canon val ≠ .null) : ∃ response, unmarshalResponse val = .ok (some response) := by
  have hno : ¬ ∃ e, unmarshalResponse val = .error e := by
    rw [unmarshalResponse_error_iff, hrej]
    simp
  cases hres : unmarshalResponse val with
  | error e => exact absurd ⟨e, hres⟩ hno
  | ok r =>
    cases r with
    | some response => exact ⟨response, rfl⟩
    | none =>
      exfalso
      unfold unmarshalResponse at hres
      split at hres
      · rename_i hc
        exact hnull hc
      · split at hres <;> cases hres
      · cases hres

/-! ## How the loop ends -/

theorem transformRow_no_callback {σ : Type} (js : JavaScriptVM σ) (rowNo : Nat)
    (blob : List (String × String)) (vm : σ) :
    transformRow js "" rowNo blob vm = ⟨.emit (stringMapText blob), vm, []⟩ := by
  simp [transformRow, marshalStringMap]

theorem sheetLoop_returned {σ : Type} (js : JavaScriptVM σ) (cb : String) (rows : List Row) :
    ∀ (rowNo : Nat) (names output : List String) (vm : σ) (evals out : List String),
      (sheetLoop js cb rowNo rows names output vm evals).outcome = .returned out none →
        out.length = output.length + dataRows rowNo rows.length := by
  induction rows with
  | nil =>
    intro rowNo names output vm evals out h
    simp only [sheetLoop, Outcome.returned.injEq, and_true] at h
    subst h
    simp [dataRows]
  | cons row rest ih =>
    intro rowNo names output vm evals out h
    simp only [sheetLoop] at h
    split at h
    · rename_i hpos
      split at h
      · have := ih _ _ _ _ _ _ h
        rw [this]
        simp [dataRows, show rowNo ≠ 0 by omega]
        omega
      · simp at h
      · simp at h
    · rename_i hpos
      have h0 : rowNo = 0 := by omega
      subst h0
      have := ih _ _ _ _ _ _ h
      rw [this]
      simp [dataRows]

/-! ## Reading back what `json.Marshal` wrote -/

theorem hexValue_hexDigit (d : Nat) (h : d < 16) : hexValue (hexDigit d) = some d := by
  interval_cases d <;> rfl

theorem encodeChar_data (c : Char) : (encodeChar c).data = encodeCharData c := by
  unfold encodeChar encodeCharData
  split_ifs <;> rfl

theorem readChars_encodeChar (c : Char) (fuel : Nat) (tail : List Char) :
    readChars (fuel + 1) (encodeCharData c ++ tail) =
      (readChars fuel tail).map fun r => (c :: r.1, r.2) := by
  unfold encodeCharData
  by_cases h1 : c.toNat = 34
  · have hc : c = Char.ofNat 34 := char_eq_of_toNat_eq _ _ (by rw [h1]; rfl)
    subst hc
    rfl
  · by_cases h2 : c.toNat = 92
    · have hc : c = Char.ofNat 92 := char_eq_of_toNat_eq _ _ (by rw [h2]; rfl)
      subst hc
      rfl
    · by_cases h3 : c.toNat = 10
      · have hc : c = Char.ofNat 10 := char_eq_of_toNat_eq _ _ (by rw [h3]; rfl)
        subst hc
        rfl
      · by_cases h4 : c.toNat = 13
        · have hc : c = Char.ofNat 13 := char_eq_of_toNat_eq _ _ (by rw [h4]; rfl)
          subst hc
          rfl
        · by_cases h5 : c.toNat = 9
          · have hc : c = Char.ofNat 9 := char_eq_of_toNat_eq _ _ (by rw [h5]; rfl)
            subst hc
            rfl
          · simp only [h1, h2, h3, h4, h5, if_false]
            split
            · rename_i h6
              have hlt : c.toNat < 65536 := by omega
              have hsum : c.toNat / 4096 % 16 * 4096 + c.toNat / 256 % 16 * 256 +
                  c.toNat / 16 % 16 * 16 + c.toNat % 16 = c.toNat := by omega
              have e92 : (Char.ofNat 92).toNat = 92 := rfl
              have e117 : (Char.ofNat 117).toNat = 117 := rfl
              show readChars (fuel + 1) (Char.ofNat 92 :: Char.ofNat 117 ::
                hexDigit (c.toNat / 4096 % 16) :: hexDigit (c.toNat / 256 % 16) ::
                hexDigit (c.toNat / 16 % 16) :: hexDigit (c.toNat % 16) :: tail) = _
              simp only [readChars, e92, e117,
                show ¬ (92 = 34) by decide, if_false, if_true,
                hexValue_hexDigit _ (Nat.mod_lt _ (by decide : 0 < 16)), hsum, Char.ofNat_toNat]
            · show readChars (fuel + 1) (c :: tail) = _
              simp only [readChars, h1, h2, if_false]

theorem readChars_encode (cs : List Char) :
    ∀ (fuel : Nat) (tail : List Char), cs.length < fuel →
      readChars fuel ((cs.map encodeCharData).flatten ++ Char.ofNat 34 :: tail) =
        some (cs, tail) := by
  induction cs with
  | nil =>
    intro fuel tail h
    cases fuel with
    | zero => omega
    | succ fuel => rfl
  | cons c cs ih =>
    intro fuel tail h
    cases fuel with
    | zero => omega
    | succ fuel =>
      simp only [List.map_cons, List.flatten_cons, List.append_assoc]
      rw [readChars_encodeChar, ih fuel tail (by simpa using h)]
      rfl

theorem encodeString_data (s : String) :
    (encodeString s).data =
      Char.ofNat 34 :: ((s.data.map encodeCharData).flatten ++ [Char.ofNat 34]) := by
  unfold encodeString
  simp only [String.data_append, String.data_join, List.map_map]
  have hfun : String.data ∘ encodeChar = encodeCharData := by
    funext c
    exact encodeChar_data c
  rw [hfun]
  rfl

theorem encodeCharData_length (c : Char) : 1 ≤ (encodeCharData c).length := by
  unfold encodeCharData
  split_ifs <;> simp

theorem flatten_encode_length (cs : List Char) :
    cs.length ≤ ((cs.map encodeCharData).flatten).length := by
  induction cs with
  | nil => simp
  | cons c cs ih =>
    have := encodeCharData_length c
    simp only [List.map_cons, List.flatten_cons, List.length_append, List.length_cons]
    omega

theorem readString_encodeString (s : String) (fuel : Nat) (tail : List Char)
    (h : s.data.length < fuel) :
    readString fuel ((encodeString s).data ++ tail) = some (s, tail) := by
  rw [encodeString_data]
  simp only [List.cons_append, List.append_assoc, List.singleton_append, readString]
  rw [if_pos (show (Char.ofNat 34).toNat = 34 from rfl), List.nil_append,
    readChars_encode s.data fuel tail h]
  rfl

theorem encodeString_length (s : String) : s.data.length + 2 ≤ (encodeString s).data.length := by
  rw [encodeString_data]
  have := flatten_encode_length s.data
  simp only [List.length_cons, List.length_append, List.length_nil]
  omega

theorem memberText_data (kv : String × String) (tail : List Char) :
    (memberText kv).data ++ tail =
      (encodeString kv.1).data ++ Char.ofNat 58 :: ((encodeString kv.2).data ++ tail) := by
  unfold memberText
  simp only [String.data_append, List.append_assoc]
  rfl

theorem readMember (kv : String × String) (tail : List Char) :
    readString ((memberText kv).data ++ tail).length ((memberText kv).data ++ tail) =
      some (kv.1, Char.ofNat 58 :: ((encodeString kv.2).data ++ tail)) ∧
    readString ((encodeString kv.2).data ++ tail).length ((encodeString kv.2).data ++ tail) =
      some (kv.2, tail) := by
  constructor
  · rw [memberText_data]
    apply readString_encodeString
    have := encodeString_length kv.1
    simp only [List.length_append]
    omega
  · apply readString_encodeString
    have := encodeString_length kv.2
    simp only [List.length_append]
    omega

theorem readMembers_join (m : List (String × String)) :
    ∀ (kv : String × String) (fuel : Nat) (tail : List Char), m.length < fuel →
      readMembers fuel ((joinMembers ((kv :: m).map memberText)).data ++ Char.ofNat 125 :: tail) =
        some (kv :: m, tail) := by
  induction m with
  | nil =>
    intro kv fuel tail h
    cases fuel with
    | zero => omega
    | succ fuel =>
      obtain ⟨h1, h2⟩ := readMember kv (Char.ofNat 125 :: tail)
      simp only [List.map_cons, List.map_nil, joinMembers, readMembers, h1, h2]
      rfl
  | cons kv2 m ih =>
    intro kv fuel tail h
    cases fuel with
    | zero => omega
    | succ fuel =>
      have hdata : (joinMembers ((kv :: kv2 :: m).map memberText)).data ++ Char.ofNat 125 :: tail =
          (memberText kv).data ++ Char.ofNat 44 ::
            ((joinMembers ((kv2 :: m).map memberText)).data ++ Char.ofNat 125 :: tail) := by
        simp only [List.map_cons, joinMembers, String.data_append, List.append_assoc]
        rfl
      obtain ⟨h1, h2⟩ := readMember kv (Char.ofNat 44 ::
        ((joinMembers ((kv2 :: m).map memberText)).data ++ Char.ofNat 125 :: tail))
      rw [hdata]
      simp only [readMembers, h1, h2]
      rw [ih kv2 fuel tail (by simpa using h)]
      rfl

theorem joinMembers_length (m : List (String × String)) :
    m.length ≤ (joinMembers (m.map memberText)).data.length := by
  induction m with
  | nil => simp
  | cons kv rest ih =>
    have hk := encodeString_length kv.1
    have hm : 1 ≤ (memberText kv).data.length := by
      unfold memberText
      simp only [String.data_append, List.length_append]
      omega
    cases rest with
    | nil => simpa [joinMembers] using hm
    | cons kv2 rest =>
      simp only [List.map_cons, joinMembers, String.data_append, List.length_append,
        List.length_cons] at ih ⊢
      omega

/-- Reading back the object text of a string map gives the map. -/
theorem decodeStringMap_stringMapText (m : List (String × String)) :
    decodeStringMap (stringMapText m) = some m := by
  cases m with
  | nil => rfl
  | cons kv rest =>
    have hdata : (stringMapText (kv :: rest)).data =
        Char.ofNat 123 :: ((joinMembers ((kv :: rest).map memberText)).data ++
          Char.ofNat 125 :: []) := by
      unfold stringMapText
      simp only [String.data_append]
      rfl
    have hlen := joinMembers_length (kv :: rest)
    have hread := readMembers_join rest kv
      ((joinMembers ((kv :: rest).map memberText)).data ++ Char.ofNat 125 :: []).length []
      (by simp only [List.length_append, List.length_cons] at hlen ⊢; omega)
    have hhead : ∃ t, (joinMembers ((kv :: rest).map memberText)).data ++ Char.ofNat 125 :: [] =
        Char.ofNat 34 :: t := by
      have hm : ∃ t, (memberText kv).data = Char.ofNat 34 :: t := by
        unfold memberText
        simp only [String.data_append, encodeString_data, List.cons_append]
        exact ⟨_, rfl⟩
      obtain ⟨t, ht⟩ := hm
      cases rest with
      | nil =>
        refine ⟨t ++ [Char.ofNat 125], ?_⟩
        simp only [List.map_cons, List.map_nil, joinMembers, ht, List.cons_append]
      | cons kv2 rest =>
        refine ⟨t ++ (",".data ++ (joinMembers ((kv2 :: rest).map memberText)).data) ++
          [Char.ofNat 125], ?_⟩
        simp only [List.map_cons, joinMembers, String.data_append, ht, List.cons_append,
          List.append_assoc]
    unfold decodeStringMap
    rw [hdata]
    simp only
    rw [if_pos (show (Char.ofNat 123).toNat = 123 from rfl)]
    generalize (joinMembers ((kv :: rest).map memberText)).data ++ Char.ofNat 125 :: [] = L
      at hread hhead
    obtain ⟨t, rfl⟩ := hhead
    simp only
    rw [if_neg (by
      intro h
      exact absurd h.1 (by decide)), hread]

/-! ## The keys of a record -/

theorem recordAt_keys (sheet : Sheet) (i : Nat) (hi : 1 ≤ i) (hlt : i < sheet.length)
    (key : String) :
    key ∈ mapKeys (recordAt sheet i) ↔
      ∃ c, c < (sheet.getD i []).length ∧ (namesAt sheet (i + 1))[c]? = some key := by
  rw [← mapGet_isSome_iff_mem_keys, recordAt_eq sheet i (by omega) hlt, mapGet_isSome_mapSetAll,
    mem_map_fst_zip]
  constructor
  · rintro (h | h)
    · simp [mapGet] at h
    · exact h
  · exact fun h => Or.inr h

theorem namesAt_header (sheet : Sheet) (i c : Nat) (hi : 1 ≤ i)
    (hc : c < (sheet.getD 0 []).length) :
    (namesAt sheet i)[c]? = (sheet.getD 0 [])[c]? := by
  cases sheet with
  | nil => simp [List.getD] at hc
  | cons header rows =>
    have hext := namesAt_extends (header :: rows) 1 i hi
    rw [namesAt_one] at hext
    have hc1 : c < header.length := by simpa [List.getD] using hc
    rw [getElem?_of_extends hext (List.getElem?_eq_getElem hc1)]
    simp [List.getD, List.getElem?_eq_getElem hc1]

/-! ## Finding the sheet -/

theorem findSheet_eq (sheets : List Sheet) :
    ∀ (k : Nat) (sheetNo : Int), findSheet k sheets sheetNo =
      if (k : Int) ≤ sheetNo then sheets[(sheetNo - k).toNat]? else none := by
  induction sheets with
  | nil => intro k sheetNo; simp [findSheet]
  | cons sheet rest ih =>
    intro k sheetNo
    unfold findSheet
    by_cases h : (k : Int) = sheetNo
    · rw [if_pos h, if_pos (by omega)]
      have : (sheetNo - k).toNat = 0 := by omega
      rw [this]
      simp
    · rw [if_neg h, ih]
      by_cases hle : (k : Int) ≤ sheetNo
      · have h1 : ((k + 1 : Nat) : Int) ≤ sheetNo := by omega
        have h2 : (sheetNo - k).toNat = (sheetNo - ((k + 1 : Nat) : Int)).toNat + 1 := by omega
        rw [if_pos h1, if_pos hle, h2, List.getElem?_cons_succ]
      · have h1 : ¬ ((k + 1 : Nat) : Int) ≤ sheetNo := by omega
        rw [if_neg h1, if_neg hle]

theorem findSheet_at (sheets : List Sheet) (k : Nat) (hk : k < sheets.length) :
    findSheet 0 sheets (k : Int) = some (sheets.getD k []) := by
  rw [findSheet_eq]
  simp [List.getD, List.getElem?_eq_getElem hk]

theorem findSheet_none (sheets : List Sheet) (sheetNo : Int)
    (h : sheetNo < 0 ∨ (sheets.length : Int) ≤ sheetNo) : findSheet 0 sheets sheetNo = none := by
  rw [findSheet_eq]
  by_cases hle : ((0 : Nat) : Int) ≤ sheetNo
  · rw [if_pos hle]
    apply List.getElem?_eq_none
    omega
  · rw [if_neg hle]

/-! ## The row an error comes from -/

theorem transformRow_fail_row {σ : Type} (js : JavaScriptVM σ) (cb : String) (rowNo : Nat)
    (blob : List (String × String)) (vm : σ) (err : String)
    (h : (transformRow js cb rowNo blob vm).result = .fail err) :
    ∃ rest, err = "row: " ++ toString rowNo ++ ", " ++ rest := by
  unfold transformRow at h
  simp only [marshalStringMap] at h
  by_cases hcb : cb = ""
  · simp [hcb] at h
  · simp only [hcb, ne_eq, not_false_eq_true, if_true] at h
    rcases hE : js.Eval vm (jsSrc cb (stringMapText blob)) with ⟨res, vm1⟩
    rw [hE] at h
    cases res with
    | error e =>
      simp only [RowResult.fail.injEq] at h
      exact ⟨"Can't run " ++ e, by rw [← h]; simp only [String.append_assoc]; rfl⟩
    | ok jsValue =>
      simp only at h
      cases hX : jsValue.Export with
      | error e =>
        rw [hX] at h
        simp only [RowResult.fail.injEq] at h
        exact ⟨"Can't convert JavaScript value " ++ cb ++ "(" ++ stringMapText blob ++ "), " ++ e,
          by rw [← h]; simp only [String.append_assoc]; rfl⟩
      | ok val =>
        rw [hX] at h
        simp only at h
        cases hM : marshalValue val with
        | error e =>
          rw [hM] at h
          simp only [RowResult.fail.injEq] at h
          exact ⟨"src: " ++ js.fmtS vm1 ++ "\njs returned " ++ jsValue.fmtV ++ "\nerror: " ++ e,
            by rw [← h]; simp only [String.append_assoc]; rfl⟩
        | ok src1 =>
          rw [hM] at h
          simp only at h
          cases hU : unmarshalResponse val with
          | error e =>
            rw [hU] at h
            simp only [RowResult.fail.injEq] at h
            exact ⟨"do not understand response " ++ src1 ++ ", " ++ e,
              by rw [← h]; simp only [String.append_assoc]; rfl⟩
          | ok r =>
            rw [hU] at h
            cases r with
            | none => simp at h
            | some response =>
              simp only at h
              by_cases herr : response.Error = ""
              · simp only [herr, not_true_eq_false, if_false] at h
                cases hS : marshalSource response.Source with
                | error e =>
                  rw [hS] at h
                  simp only [RowResult.fail.injEq] at h
                  exact ⟨e, h.symm⟩
                | ok src2 =>
                  rw [hS] at h
                  simp at h
              · simp only [herr, not_false_eq_true, if_true, RowResult.fail.injEq] at h
                exact ⟨response.Error, h.symm⟩

theorem sheetLoop_failed_row {σ : Type} (js : JavaScriptVM σ) (cb : String) (rows : List Row) :
    ∀ (rowNo : Nat) (st : LoopState σ) (out : List String) (err : String),
      (sheetLoop js cb rowNo rows st.columnNames st.output st.vm st.evals).outcome =
          .returned out (some err) →
        ∃ (pre : List Row) (row : Row) (rest : List Row) (st1 : LoopState σ),
          rows = pre ++ row :: rest ∧ reach js cb rowNo pre st = some st1 ∧
          0 < rowNo + pre.length ∧
          (transformRow js cb (rowNo + pre.length)
            (rowCells (rowNo + pre.length) row st1.columnNames).2 st1.vm).result = .fail err ∧
          out = st1.output := by
  induction rows with
  | nil =>
    intro rowNo st out err h
    simp [sheetLoop] at h
  | cons row rest ih =>
    intro rowNo st out err h
    simp only [sheetLoop] at h
    by_cases hpos : rowNo > 0
    · rw [if_pos hpos] at h
      cases hres : (transformRow js cb rowNo (rowCells rowNo row st.columnNames).2 st.vm).result with
      | emit src =>
        simp only [hres] at h
        obtain ⟨pre, row1, rest1, st1, hrows, hreach, hp, hfail, hout⟩ :=
          ih (rowNo + 1) ⟨(rowCells rowNo row st.columnNames).1, st.output ++ [src],
            (transformRow js cb rowNo (rowCells rowNo row st.columnNames).2 st.vm).vm,
            st.evals ++ (transformRow js cb rowNo (rowCells rowNo row st.columnNames).2 st.vm).evals⟩
            out err h
        have hidx : rowNo + 1 + pre.length = rowNo + (row :: pre).length := by
          simp only [List.length_cons]; omega
        refine ⟨row :: pre, row1, rest1, st1, by rw [hrows]; rfl, ?_, by omega, ?_, hout⟩
        · simp only [reach, if_pos hpos, hres]
          exact hreach
        · rw [← hidx]
          exact hfail
      | fail e =>
        simp only [hres, Outcome.returned.injEq, Option.some.injEq] at h
        refine ⟨[], row, rest, st, rfl, rfl, by simpa using hpos, ?_, h.1.symm⟩
        rw [← h.2]
        simpa using hres
      | panic msg =>
        simp [hres] at h
    · rw [if_neg hpos] at h
      obtain ⟨pre, row1, rest1, st1, hrows, hreach, hp, hfail, hout⟩ :=
        ih (rowNo + 1) ⟨(rowCells rowNo row st.columnNames).1, st.output, st.vm, st.evals⟩
          out err h
      have hidx : rowNo + 1 + pre.length = rowNo + (row :: pre).length := by
        simp only [List.length_cons]; omega
      refine ⟨row :: pre, row1, rest1, st1, by rw [hrows]; rfl, ?_, by omega, ?_, hout⟩
      · simp only [reach, if_neg hpos]
        exact hreach
      · rw [← hidx]
        exact hfail

/-- An error `processSheet` returns is the error of a data row that is reached. -/
theorem processSheet_failed_row {σ : Type} (js : JavaScriptVM σ) (vm : σ) (cb : String)
    (sheet : Sheet) (out : List String) (err : String)
    (h : (processSheet js vm cb sheet).outcome = .returned out (some err)) :
    ∃ (i : Nat) (st : LoopState σ), 1 ≤ i ∧ i < sheet.length ∧
      stateAt js vm cb sheet i = some st ∧ (rowExec js cb sheet i st).result = .fail err ∧
      out = st.output := by
  obtain ⟨pre, row, rest, st1, hrows, hreach, hp, hfail, hout⟩ :=
    sheetLoop_failed_row js cb sheet 0 ⟨[], [], vm, []⟩ out err h
  have hlen : pre.length < sheet.length := by
    rw [hrows]
    simp
  have htake : sheet.take pre.length = pre := by
    rw [hrows]
    simp
  have hst : stateAt js vm cb sheet pre.length = some st1 := by
    unfold stateAt
    rw [htake]
    exact hreach
  have hrow : sheet.getD pre.length [] = row := by
    rw [hrows]
    simp [List.getD, List.getElem_append_right]
  refine ⟨pre.length, st1, by omega, hlen, hst, ?_, hout⟩
  unfold rowExec recordAt
  rw [hrow, ← stateAt_columnNames js vm cb sheet pre.length st1 hst]
  simpa using hfail

/-! ## The evaluations of a run without failure -/

theorem sheetLoop_success_evals {σ : Type} (js : JavaScriptVM σ) (cb : String) (hcb : cb ≠ "")
    (rows : List Row) :
    ∀ (rowNo : Nat) (names output : List String) (vm : σ) (evals out : List String), 0 < rowNo →
      (sheetLoop js cb rowNo rows names output vm evals).outcome = .returned out none →
        (sheetLoop js cb rowNo rows names output vm evals).evals =
          evals ++ (blobsFrom rowNo rows names).map fun b => jsSrc cb (stringMapText b) := by
  induction rows with
  | nil =>
    intro rowNo names output vm evals out _ _
    simp [sheetLoop, blobsFrom]
  | cons row rest ih =>
    intro rowNo names output vm evals out hpos h
    have hev := transformRow_evals_length js cb rowNo (rowCells rowNo row names).2 vm
    rw [if_neg hcb] at hev
    simp only [sheetLoop, if_pos hpos] at h ⊢
    cases hres : (transformRow js cb rowNo (rowCells rowNo row names).2 vm).result with
    | emit src =>
      simp only [hres] at h ⊢
      rw [ih _ _ _ _ _ out (Nat.succ_pos _) h, hev]
      simp [blobsFrom]
    | fail e => simp [hres] at h
    | panic msg => simp [hres] at h

theorem processSheet_success_evals {σ : Type} (js : JavaScriptVM σ) (vm : σ) (cb : String)
    (hcb : cb ≠ "") (sheet : Sheet) (out : List String)
    (h : (processSheet js vm cb sheet).outcome = .returned out none) :
    (processSheet js vm cb sheet).evals =
      ((blobsFrom 0 sheet []).drop 1).map fun b => jsSrc cb (stringMapText b) := by
  cases sheet with
  | nil => simp [processSheet, sheetLoop, blobsFrom]
  | cons header rows =>
    unfold processSheet at h ⊢
    simp only [sheetLoop, gt_iff_lt, Nat.lt_irrefl, if_false] at h ⊢
    rw [sheetLoop_success_evals js cb hcb rows 1 _ _ _ _ out (by decide) h]
    simp [blobsFrom]

/-! ## The claims -/

/-- C1: without a transform function `processSheet` returns no error and one
string per data row, the string of row `i` being the JSON text of the record
built from row `i`; the header row gives no entry, the VM is left as it was
and no source text is evaluated.  A sheet with no row or with the header row
only gives the empty output.  The sheet of the example gives the two texts
of the example. -/
theorem processSheet_without_transform {σ : Type} (js : JavaScriptVM σ) (vm : σ)
    (sheet : Sheet) :
    ∃ output : List String,
      (processSheet js vm "" sheet).outcome = .returned output none ∧
      (processSheet js vm "" sheet).vm = vm ∧
      (processSheet js vm "" sheet).evals = [] ∧
      output.length = sheet.length - 1 ∧
      (sheet.length ≤ 1 → output = []) ∧
      (∀ i, 1 ≤ i → i < sheet.length →
        ∃ text, output[i - 1]? = some text ∧ marshalStringMap (recordAt sheet i) = .ok text) ∧
      (sheet = [["Name", "Age"], ["Ada", "30"], ["Grace", "85"]] →
        output = ["\x7b\"Age\":\"30\",\"Name\":\"Ada\"\x7d",
          "\x7b\"Age\":\"85\",\"Name\":\"Grace\"\x7d"]) := by
  refine ⟨((blobsFrom 0 sheet []).drop 1).map stringMapText, ?_, ?_, ?_, ?_, ?_, ?_, ?_⟩
  · rw [processSheet_no_callback]
  · rw [processSheet_no_callback]
  · rw [processSheet_no_callback]
  · simp [blobsFrom_length]
  · intro h
    apply List.eq_nil_of_length_eq_zero
    simp [blobsFrom_length]
    omega
  · intro i h1 hi
    refine ⟨stringMapText (recordAt sheet i), ?_, rfl⟩
    have hidx : i - 1 + 1 = i := by omega
    simp [List.getElem?_drop, hidx, blobsFrom_zero_getElem? sheet i hi]
  · intro h
    subst h
    decide

/-- C9: `columnNames` only grows: the names when a row is reached are a prefix
of the names after the row, so no name is removed or changed and the length
never shrinks (from any row to any later one); and after a row the length is
at least the cell count of that row and of every row before it. -/
theorem columnNames_append_only (sheet : Sheet) :
    (∀ i, namesAt sheet i <+: namesAt sheet (i + 1)) ∧
    (∀ i j : Nat, i ≤ j → namesAt sheet i <+: namesAt sheet j ∧
      (namesAt sheet i).length ≤ (namesAt sheet j).length ∧
      ∀ (k : Nat) (name : String),
        (namesAt sheet i)[k]? = some name → (namesAt sheet j)[k]? = some name) ∧
    (∀ i j : Nat, j ≤ i → i < sheet.length →
      (sheet.getD j []).length ≤ (namesAt sheet (i + 1)).length) := by
  refine ⟨namesAt_extends_succ sheet, ?_, ?_⟩
  · intro i j h
    have hp := namesAt_extends sheet i j h
    exact ⟨hp, hp.length_le, fun k name hk => getElem?_of_extends hp hk⟩
  · intro i j hji hi
    exact namesAt_length sheet (i + 1) j (by omega) (by omega)

/-- C2: in a data row `i`, a cell at a position `k` at or past the number of
header cells is stored in the record under the key `column_<k+1>`; that name
is at index `k` of `columnNames` from then on, and every later row with a
cell at position `k` stores it under the same key, whatever the rows in
between. -/
theorem overflow_column_names (sheet : Sheet) (i k : Nat) (hi : 1 ≤ i) (hlt : i < sheet.length)
    (hk : k < (sheet.getD i []).length) (hH : (sheet.getD 0 []).length ≤ k) :
    mapGet ("column_" ++ toString (k + 1)) (recordAt sheet i) = (sheet.getD i [])[k]? ∧
    (∀ j : Nat, i < j → (namesAt sheet j)[k]? = some ("column_" ++ toString (k + 1))) ∧
    (∀ j : Nat, i < j → j < sheet.length → k < (sheet.getD j []).length →
      mapGet ("column_" ++ toString (k + 1)) (recordAt sheet j) = (sheet.getD j [])[k]?) := by
  refine ⟨recordAt_overflow sheet i k hi hlt hk hH, ?_, ?_⟩
  · intro j hj
    have hlen : k < (namesAt sheet j).length :=
      Nat.lt_of_lt_of_le hk (namesAt_length sheet j i hlt hj)
    rw [List.getElem?_eq_getElem hlen]
    exact congrArg some
      (namesAt_synthesized sheet j (by omega) k _ hH (List.getElem?_eq_getElem hlen))
  · intro j hj hjlt hkj
    exact recordAt_overflow sheet j k (by omega) hjlt hkj hH

/-- C2 at the sheet `[A] / [x, y] / [p] / [q, r]`, row 1, position 1. -/
theorem overflow_column_names_witness :
    mapGet ("column_" ++ toString (1 + 1)) (recordAt [["A"], ["x", "y"], ["p"], ["q", "r"]] 1)
        = (List.getD [["A"], ["x", "y"], ["p"], ["q", "r"]] 1 [])[1]? ∧
    (∀ j : Nat, 1 < j → (namesAt [["A"], ["x", "y"], ["p"], ["q", "r"]] j)[1]?
        = some ("column_" ++ toString (1 + 1))) ∧
    (∀ j : Nat, 1 < j → j < List.length [["A"], ["x", "y"], ["p"], ["q", "r"]] →
      1 < (List.getD [["A"], ["x", "y"], ["p"], ["q", "r"]] j []).length →
      mapGet ("column_" ++ toString (1 + 1)) (recordAt [["A"], ["x", "y"], ["p"], ["q", "r"]] j)
        = (List.getD [["A"], ["x", "y"], ["p"], ["q", "r"]] j [])[1]?) :=
  overflow_column_names [["A"], ["x", "y"], ["p"], ["q", "r"]] 1 1 (by decide) (by decide)
    (by decide) (by decide)

/-- C8: in a data row `i` with fewer cells than names known when the row is
reached, the keys of the record are the names at the positions of its cells
and no other: no key stands for a position the row has no cell at, and no
key is left of an earlier record. -/
theorem short_row_keys (sheet : Sheet) (i : Nat) (hi : 1 ≤ i) (hlt : i < sheet.length)
    (hm : (sheet.getD i []).length < (namesAt sheet i).length) (key : String) :
    key ∈ mapKeys (recordAt sheet i) ↔
      ∃ c, c < (sheet.getD i []).length ∧ (namesAt sheet i)[c]? = some key := by
  rw [← mapGet_isSome_iff_mem_keys, recordAt_eq sheet i (by omega) hlt, mapGet_isSome_mapSetAll,
    mem_map_fst_zip]
  obtain ⟨t, ht⟩ := namesAt_extends_succ sheet i
  constructor
  · rintro (h | ⟨c, hc, hget⟩)
    · simp [mapGet] at h
    · refine ⟨c, hc, ?_⟩
      rw [← ht, List.getElem?_append_left (by omega)] at hget
      exact hget
  · rintro ⟨c, hc, hget⟩
    right
    exact ⟨c, hc, getElem?_of_extends (namesAt_extends_succ sheet i) hget⟩

/-- C8 at the sheet `[A, B, C] / [x]`: the record of row 1 has the key `A` only. -/
theorem short_row_keys_witness :
    "A" ∈ mapKeys (recordAt [["A", "B", "C"], ["x"]] 1) ↔
      ∃ c, c < (List.getD [["A", "B", "C"], ["x"]] 1 []).length ∧
        (namesAt [["A", "B", "C"], ["x"]] 1)[c]? = some "A" :=
  short_row_keys [["A", "B", "C"], ["x"]] 1 (by decide) (by decide) (by decide) "A"

/-- C10 fails as stated: in the sheet `[A, A, A] / [x, y, z]` the cells at
positions 0 and 1 of row 1 resolve to the same name `A`, the cell at position
1 holds `y`, and the record maps `A` to `z`, the text of the cell at position 2. -/
theorem collision_counterexample :
    (namesAt [["A", "A", "A"], ["x", "y", "z"]] 2)[0]? = some "A" ∧
    (namesAt [["A", "A", "A"], ["x", "y", "z"]] 2)[1]? = some "A" ∧
    (List.getD [["A", "A", "A"], ["x", "y", "z"]] 1 [])[1]? = some "y" ∧
    mapGet "A" (recordAt [["A", "A", "A"], ["x", "y", "z"]] 1) = some "z" ∧
    mapGet "A" (recordAt [["A", "A", "A"], ["x", "y", "z"]] 1) ≠
      (List.getD [["A", "A", "A"], ["x", "y", "z"]] 1 [])[1]? := by
  decide

/-- C10 as amended: when the cells at positions `c1 < c2` of a data row
resolve to the same name and no cell after `c2` resolves to it, the record
maps the name to the text of the cell at `c2`; the record has one entry for
the name and fewer entries than the row has cells. -/
theorem collision_last_cell_wins (sheet : Sheet) (i c1 c2 : Nat) (name : String) (hi : 1 ≤ i)
    (hlt : i < sheet.length) (h12 : c1 < c2) (hc2 : c2 < (sheet.getD i []).length)
    (hn1 : (namesAt sheet (i + 1))[c1]? = some name)
    (hn2 : (namesAt sheet (i + 1))[c2]? = some name)
    (hlast : ∀ c3, c2 < c3 → c3 < (sheet.getD i []).length →
      (namesAt sheet (i + 1))[c3]? ≠ some name) :
    mapGet name (recordAt sheet i) = (sheet.getD i [])[c2]? ∧
    (mapKeys (recordAt sheet i)).count name = 1 ∧
    (recordAt sheet i).length < (sheet.getD i []).length := by
  have hget := recordAt_last_cell sheet i c2 name hi hlt hc2 hn2 hlast
  have hnodup := nodup_keys_of_keyOrdered _ (recordAt_keyOrdered sheet i hi hlt)
  have hmem : name ∈ mapKeys (recordAt sheet i) := by
    rw [← mapGet_isSome_iff_mem_keys, hget, List.getElem?_eq_getElem hc2]
    rfl
  refine ⟨hget, List.count_eq_one_of_mem hnodup hmem, ?_⟩
  have hlen : (sheet.getD i []).length ≤ (namesAt sheet (i + 1)).length :=
    namesAt_length sheet (i + 1) i hlt (by omega)
  have hks : (((namesAt sheet (i + 1)).zip (sheet.getD i [])).map Prod.fst).length =
      (sheet.getD i []).length := by
    rw [List.length_map, List.length_zip]
    exact Nat.min_eq_right hlen
  have hsub : mapKeys (recordAt sheet i) ⊆
      ((namesAt sheet (i + 1)).zip (sheet.getD i [])).map Prod.fst := by
    intro key hkey
    rw [← mapGet_isSome_iff_mem_keys, recordAt_eq sheet i (by omega) hlt,
      mapGet_isSome_mapSetAll] at hkey
    rcases hkey with h | h
    · simp [mapGet] at h
    · exact h
  have hzip : ∀ c, c < (sheet.getD i []).length →
      (((namesAt sheet (i + 1)).zip (sheet.getD i [])).map Prod.fst)[c]? =
        (namesAt sheet (i + 1))[c]? := by
    intro c hc
    have hc1 : c < (namesAt sheet (i + 1)).length := by omega
    generalize sheet.getD i [] = row at hc
    generalize namesAt sheet (i + 1) = names at hc1
    rw [List.getElem?_map, List.getElem?_eq_getElem (by simp [List.length_zip]; omega),
      List.getElem?_eq_getElem hc1]
    simp
  have := length_lt_of_collision _ _ c1 c2 name h12 ((hzip c1 (by omega)).trans hn1)
    ((hzip c2 hc2).trans hn2) hnodup hsub
  rw [hks] at this
  simpa [mapKeys] using this

/-- C10 as amended, at the sheet `[A, A, B] / [x, y, z]`, row 1, positions 0 and 1. -/
theorem collision_last_cell_wins_witness :
    mapGet "A" (recordAt [["A", "A", "B"], ["x", "y", "z"]] 1) =
      (List.getD [["A", "A", "B"], ["x", "y", "z"]] 1 [])[1]? ∧
    (mapKeys (recordAt [["A", "A", "B"], ["x", "y", "z"]] 1)).count "A" = 1 ∧
    (recordAt [["A", "A", "B"], ["x", "y", "z"]] 1).length <
      (List.getD [["A", "A", "B"], ["x", "y", "z"]] 1 []).length :=
  collision_last_cell_wins [["A", "A", "B"], ["x", "y", "z"]] 1 0 1 "A" (by decide) (by decide)
    (by decide) (by decide) (by decide) (by decide) (by
      intro c3 h1 h2
      have h3 : c3 = 2 := by
        have : c3 < 3 := h2
        omega
      subst h3
      decide)

/-- C4: when the data row `i` is reached and the decoded response of its
transform has a non-empty error field, `Run` returns the nil output and the
error `row: <i>, <error field>`, which names the row and holds the text of
the field; the transform is evaluated on no later row. -/
theorem rejected_row_fails_run {σ : Type} (openFile : String → Except String (List Sheet))
    (js : JavaScriptVM σ) (vm vm1 : σ) (path : String) (sheetNo : Int) (cb : String)
    (sheets : List Sheet) (sheet : Sheet) (i : Nat) (st : LoopState σ) (jsValue : Value)
    (val : GoValue) (src1 : String) (response : jsResponse)
    (hOpen : openFile path = .ok sheets) (hSheet : findSheet 0 sheets sheetNo = some sheet)
    (hcb : cb ≠ "") (hi : 1 ≤ i) (hlt : i < sheet.length)
    (hst : stateAt js vm cb sheet i = some st)
    (hEval : js.Eval st.vm (jsSrc cb (stringMapText (recordAt sheet i))) = (.ok jsValue, vm1))
    (hExport : jsValue.Export = .ok val) (hMarshal : marshalValue val = .ok src1)
    (hDecode : unmarshalResponse val = .ok (some response)) (hErr : response.Error ≠ "") :
    Run openFile js vm path sheetNo cb =
      ⟨.returned [] (some ("row: " ++ toString i ++ ", " ++ response.Error)), vm1,
        st.evals ++ [jsSrc cb (stringMapText (recordAt sheet i))]⟩ := by
  have hrow : rowExec js cb sheet i st =
      ⟨.fail ("row: " ++ toString i ++ ", " ++ response.Error), vm1,
        [jsSrc cb (stringMapText (recordAt sheet i))]⟩ := by
    unfold rowExec
    rw [transformRow_answer js cb i _ st.vm vm1 jsValue val src1 hcb hEval hExport hMarshal,
      hDecode]
    simp only [hErr, ne_eq, not_false_eq_true, if_true]
  have hp := processSheet_fail_at js vm cb sheet i st _ hi hlt hst (by rw [hrow])
  rw [Run_eq openFile js vm path sheetNo cb sheets sheet hOpen hSheet, hp, hrow]

/-- C4 at the sheet `[Name] / [Ada] / [Bob]` with a transform that answers
`{"source": {}, "error": "bad row"}`: the run fails at row 1 after one evaluation. -/
theorem rejected_row_fails_run_witness :
    Run (oneSheet [["Name"], ["Ada"], ["Bob"]])
        (constVM (.object [("source", .object []), ("error", .string "bad row")])) 0
        "book.xlsx" 0 "f" =
      ⟨.returned [] (some "row: 1, bad row"), 1,
        ["(function()\x7b return f(\x7b\"Name\":\"Ada\"\x7d);\x7d())"]⟩ :=
  rejected_row_fails_run (oneSheet [["Name"], ["Ada"], ["Bob"]])
    (constVM (.object [("source", .object []), ("error", .string "bad row")])) 0 1
    "book.xlsx" 0 "f" [[["Name"], ["Ada"], ["Bob"]]] [["Name"], ["Ada"], ["Bob"]] 1
    ⟨["Name"], [], 0, []⟩
    ⟨.ok (.object [("source", .object []), ("error", .string "bad row")]), "[object Object]"⟩
    (.object [("source", .object []), ("error", .string "bad row")])
    "\x7b\"error\":\"bad row\",\"source\":\x7b\x7d\x7d" ⟨"", some [], "bad row"⟩
    rfl rfl (by decide) (by decide) (by decide) rfl rfl rfl rfl rfl (by decide)

/-- C3 fails as stated: on the sheet `[Name] / [Ada]` with a transform that
answers `{"source": {"n": 9007199254740993}}`, the object returned is written
`{"n":9007199254740993}`, but `json.Unmarshal` stores the number in the
`Source` map as the `float64` `9007199254740992`, and the entry of row 1 is
`{"n":9007199254740992}`: not the text of the object the transform returned. -/
theorem transformed_row_counterexample :
    marshalValue (.object [("n", .number "9007199254740993" "9007199254740992")]) =
      .ok "\x7b\"n\":9007199254740993\x7d" ∧
    (processSheet
      (constVM (.object [("source",
        .object [("n", .number "9007199254740993" "9007199254740992")])])) 0 "f"
      [["Name"], ["Ada"]]).outcome = .returned ["\x7b\"n\":9007199254740992\x7d"] none ∧
    "\x7b\"n\":9007199254740992\x7d" ≠ "\x7b\"n\":9007199254740993\x7d" := by
  decide

/-- C3 as amended: when the data row `i` is reached with a transform name and
the decoded response of its transform has an empty error field, the entry of
the row is the JSON text of the `Source` of the response as `json.Unmarshal`
decoded it (which `json.Marshal` always writes), whatever the record of the
row is: it is appended to the output as entry `i - 1`, and is there when
`processSheet` returns.  When the value returned is an object with the one
member `source`, an object, the `Source` holds the members of that object,
each value as `json.Unmarshal` stores it in an `interface{}`, every number a
`float64`. -/
theorem transformed_row_output {σ : Type} (js : JavaScriptVM σ) (vm vm1 : σ) (cb : String)
    (sheet : Sheet) (i : Nat) (st : LoopState σ) (jsValue : Value) (val : GoValue)
    (src1 : String) (response : jsResponse)
    (hcb : cb ≠ "") (hi : 1 ≤ i) (hlt : i < sheet.length)
    (hst : stateAt js vm cb sheet i = some st)
    (hEval : js.Eval st.vm (jsSrc cb (stringMapText (recordAt sheet i))) = (.ok jsValue, vm1))
    (hExport : jsValue.Export = .ok val) (hMarshal : marshalValue val = .ok src1)
    (hDecode : unmarshalResponse val = .ok (some response)) (hErr : response.Error = "") :
    ∃ src2, marshalSource response.Source = .ok src2 ∧
      (rowExec js cb sheet i st).result = .emit src2 ∧
      stateAt js vm cb sheet (i + 1) =
        some ⟨namesAt sheet (i + 1), st.output ++ [src2], vm1,
          st.evals ++ [jsSrc cb (stringMapText (recordAt sheet i))]⟩ ∧
      (st.output ++ [src2])[i - 1]? = some src2 ∧
      (∀ final, stateAt js vm cb sheet sheet.length = some final →
        (processSheet js vm cb sheet).outcome = .returned final.output none ∧
        final.output[i - 1]? = some src2) ∧
      (∀ fs, canon val = .object [("source", .object fs)] →
        response.Source = some (mapSetAll [] (decodeFields fs))) := by
  obtain ⟨src2, hsrc2⟩ := marshalSource_ok val src1 response hMarshal hDecode
  have hrow : rowExec js cb sheet i st =
      ⟨.emit src2, vm1, [jsSrc cb (stringMapText (recordAt sheet i))]⟩ := by
    unfold rowExec
    rw [transformRow_answer js cb i _ st.vm vm1 jsValue val src1 hcb hEval hExport hMarshal,
      hDecode]
    simp only [hErr, ne_eq, not_true_eq_false, if_false, hsrc2]
  have hnext := stateAt_succ_emit js vm cb sheet i st src2 hi hlt hst (by rw [hrow])
  rw [hrow] at hnext
  have hlen := (stateAt_lengths js vm cb sheet i st (Nat.le_of_lt hlt) hst).1
  have hidx : (st.output ++ [src2])[i - 1]? = some src2 := by
    rw [← hlen]
    simp
  refine ⟨src2, hsrc2, by rw [hrow], hnext, hidx, ?_, ?_⟩
  · intro final hfinal
    refine ⟨by rw [processSheet_done js vm cb sheet final hfinal], ?_⟩
    have hext := stateAt_output_extends js vm cb sheet (i + 1) sheet.length _ final (by omega)
      hnext hfinal
    exact getElem?_of_extends hext hidx
  · intro fs hcanon
    exact unmarshalResponse_source_only val fs response hcanon hDecode

/-- C3 as amended, at the sheet `[Name] / [Ada]` with a transform that answers
`{"source": {"Name": "ADA"}}`: the entry of row 1 is `{"Name":"ADA"}`. -/
theorem transformed_row_output_witness :
    ∃ src2, marshalSource (some [("Name", GoValue.string "ADA")]) = .ok src2 ∧
      (rowExec (constVM (.object [("source", .object [("Name", .string "ADA")])])) "f"
        [["Name"], ["Ada"]] 1 ⟨["Name"], [], 0, []⟩).result = .emit src2 ∧
      stateAt (constVM (.object [("source", .object [("Name", .string "ADA")])])) 0 "f"
          [["Name"], ["Ada"]] (1 + 1) =
        some ⟨namesAt [["Name"], ["Ada"]] (1 + 1), [] ++ [src2], 1,
          [] ++ [jsSrc "f" (stringMapText (recordAt [["Name"], ["Ada"]] 1))]⟩ ∧
      (([] : List String) ++ [src2])[1 - 1]? = some src2 ∧
      (∀ final, stateAt (constVM (.object [("source", .object [("Name", .string "ADA")])])) 0
          "f" [["Name"], ["Ada"]] (List.length [["Name"], ["Ada"]]) = some final →
        (processSheet (constVM (.object [("source", .object [("Name", .string "ADA")])])) 0 "f"
          [["Name"], ["Ada"]]).outcome = .returned final.output none ∧
        final.output[1 - 1]? = some src2) ∧
      (∀ fs, canon (.object [("source", .object [("Name", .string "ADA")])]) =
          .object [("source", .object fs)] →
        some [("Name", GoValue.string "ADA")] = some (mapSetAll [] (decodeFields fs))) :=
  transformed_row_output (constVM (.object [("source", .object [("Name", .string "ADA")])])) 0 1
    "f" [["Name"], ["Ada"]] 1 ⟨["Name"], [], 0, []⟩
    ⟨.ok (.object [("source", .object [("Name", .string "ADA")])]), "[object Object]"⟩
    (.object [("source", .object [("Name", .string "ADA")])])
    "\x7b\"source\":\x7b\"Name\":\"ADA\"\x7d\x7d" ⟨"", some [("Name", .string "ADA")], ""⟩
    (by decide) (by decide) (by decide) rfl rfl rfl rfl rfl rfl

/-- All or nothing, for the calls that return.  Whenever `Run` on a sheet
returns, it returns either no error and one entry per data row, or an error
and the nil output.  When a data row `i` is reached (every row before it gave
its entry) and a stage of its pipeline returns an error, `Run` returns that
error and the nil output, although `processSheet` held the `i - 1` entries of
the rows before; the evaluations are those of the rows `1..i`, one each, and
none of a later row. -/
theorem returned_all_or_nothing {σ : Type} (openFile : String → Except String (List Sheet))
    (js : JavaScriptVM σ) (vm : σ) (path : String) (sheetNo : Int) (cb : String)
    (sheets : List Sheet) (sheet : Sheet)
    (hOpen : openFile path = .ok sheets) (hSheet : findSheet 0 sheets sheetNo = some sheet) :
    (∀ out err, (Run openFile js vm path sheetNo cb).outcome = .returned out err →
      (err = none ∧ out.length = sheet.length - 1) ∨ (∃ e, err = some e ∧ out = [])) ∧
    (∀ (i : Nat) (st : LoopState σ) (err : String), 1 ≤ i → i < sheet.length →
      stateAt js vm cb sheet i = some st → (rowExec js cb sheet i st).result = .fail err →
        Run openFile js vm path sheetNo cb =
          ⟨.returned [] (some err), (rowExec js cb sheet i st).vm,
            st.evals ++ [jsSrc cb (stringMapText (recordAt sheet i))]⟩ ∧
        (processSheet js vm cb sheet).outcome = .returned st.output (some err) ∧
        st.output.length = i - 1 ∧
        (Run openFile js vm path sheetNo cb).evals.length = i) := by
  constructor
  · intro out err h
    rw [Run_eq openFile js vm path sheetNo cb sheets sheet hOpen hSheet] at h
    simp only at h
    split at h
    · rename_i output hout
      simp only [Outcome.returned.injEq] at h
      obtain ⟨h1, h2⟩ := h
      subst h1
      subst h2
      left
      refine ⟨rfl, ?_⟩
      have := sheetLoop_returned js cb sheet 0 [] [] vm [] output hout
      simpa [dataRows] using this
    · simp only [Outcome.returned.injEq] at h
      right
      exact ⟨_, h.2.symm, h.1.symm⟩
    · cases h
  · intro i st err hi hlt hst hres
    have hcb : cb ≠ "" := by
      intro h0
      subst h0
      unfold rowExec at hres
      rw [transformRow_no_callback] at hres
      cases hres
    have hev : (rowExec js cb sheet i st).evals = [jsSrc cb (stringMapText (recordAt sheet i))] := by
      unfold rowExec
      rw [transformRow_evals_length, if_neg hcb]
    have hp := processSheet_fail_at js vm cb sheet i st err hi hlt hst hres
    have hlen := stateAt_lengths js vm cb sheet i st (Nat.le_of_lt hlt) hst
    have hrun : Run openFile js vm path sheetNo cb =
        ⟨.returned [] (some err), (rowExec js cb sheet i st).vm,
          st.evals ++ [jsSrc cb (stringMapText (recordAt sheet i))]⟩ := by
      rw [Run_eq openFile js vm path sheetNo cb sheets sheet hOpen hSheet, hp, hev]
    refine ⟨hrun, by rw [hp], hlen.1, ?_⟩
    rw [hrun]
    simp only [List.length_append, List.length_singleton, hlen.2, if_neg hcb]
    omega

/-- The sheet `[Name] / [Ada] / [Bob] / [Cy]` with a transform that answers
row 1 and throws from row 2 on: the run returns the error of row 2 and the
nil output after two evaluations. -/
theorem returned_all_or_nothing_witness :
    Run (oneSheet [["Name"], ["Ada"], ["Bob"], ["Cy"]])
        (failAfter 1 (.object [("source", .object [])])) 0 "book.xlsx" 0 "f" =
      ⟨.returned [] (some "row: 2, Can't run ReferenceError"), 2,
        ["(function()\x7b return f(\x7b\"Name\":\"Ada\"\x7d);\x7d())",
          "(function()\x7b return f(\x7b\"Name\":\"Bob\"\x7d);\x7d())"]⟩ ∧
    (processSheet (failAfter 1 (.object [("source", .object [])])) 0 "f"
      [["Name"], ["Ada"], ["Bob"], ["Cy"]]).outcome =
        .returned ["\x7b\x7d"] (some "row: 2, Can't run ReferenceError") :=
  have h := (returned_all_or_nothing (oneSheet [["Name"], ["Ada"], ["Bob"], ["Cy"]])
    (failAfter 1 (.object [("source", .object [])])) 0 "book.xlsx" 0 "f"
    [[["Name"], ["Ada"], ["Bob"], ["Cy"]]] [["Name"], ["Ada"], ["Bob"], ["Cy"]] rfl rfl).2 2
    ⟨["Name"], ["\x7b\x7d"], 1, ["(function()\x7b return f(\x7b\"Name\":\"Ada\"\x7d);\x7d())"]⟩
    "row: 2, Can't run ReferenceError" (by decide) (by decide) rfl rfl
  ⟨h.1, h.2.1⟩

/-- C5, the code at the failing input: on the sheet `[Name] / [Ada] / [Bob]`
with a transform that answers `null`, `json.Unmarshal` sets `response` to nil
without an error and line 130 dereferences it: `Run` returns neither an output
nor an error, it panics at row 1. -/
theorem all_or_nothing_null_answer :
    unmarshalResponse .null = .ok none ∧
    Run (oneSheet [["Name"], ["Ada"], ["Bob"]]) (constVM .null) 0 "book.xlsx" 0 "f" =
      ⟨.panicked "runtime error: invalid memory address or nil pointer dereference", 1,
        ["(function()\x7b return f(\x7b\"Name\":\"Ada\"\x7d);\x7d())"]⟩ :=
  ⟨rfl, rfl⟩

/-- C6 fails as stated: a transform that answers the object `{}`, which has
no `source` member, or the object `{"source": null}`, is not rejected: on
the sheet `[Name] / [Ada]` the run returns no error and the entry `null`. -/
theorem shape_gate_counterexample :
    unmarshalResponse (.object []) = .ok (some jsResponse.zero) ∧
    Run (oneSheet [["Name"], ["Ada"]]) (constVM (.object [])) 0 "book.xlsx" 0 "f" =
      ⟨.returned ["null"] none, 1,
        ["(function()\x7b return f(\x7b\"Name\":\"Ada\"\x7d);\x7d())"]⟩ ∧
    Run (oneSheet [["Name"], ["Ada"]]) (constVM (.object [("source", .null)])) 0
        "book.xlsx" 0 "f" =
      ⟨.returned ["null"] none, 1,
        ["(function()\x7b return f(\x7b\"Name\":\"Ada\"\x7d);\x7d())"]⟩ :=
  ⟨rfl, rfl, rfl⟩

/-- C6 as amended: `json.Unmarshal` reports an error exactly for the rejected
shapes: a value that is neither `null` nor an object, and an object with a
`source` member that is neither an object nor `null` or a `path` or `error`
member that is neither a string nor `null`.  When the data row `i` is
reached and its transform returns a rejected shape, `processSheet` returns
the error `row: <i>, do not understand response ...` and the output holds
the `i - 1` entries of the rows before, none for row `i`.  Every other value
but `null` decodes to a response. -/
theorem shape_gate {σ : Type} (js : JavaScriptVM σ) (vm vm1 : σ) (cb : String)
    (sheet : Sheet) (i : Nat) (st : LoopState σ) (jsValue : Value) (val : GoValue)
    (src1 : String)
    (hcb : cb ≠ "") (hi : 1 ≤ i) (hlt : i < sheet.length)
    (hst : stateAt js vm cb sheet i = some st)
    (hEval : js.Eval st.vm (jsSrc cb (stringMapText (recordAt sheet i))) = (.ok jsValue, vm1))
    (hExport : jsValue.Export = .ok val) (hMarshal : marshalValue val = .ok src1) :
    ((∃ e, unmarshalResponse val = .error e) ↔ rejectedShape val = true) ∧
    (rejectedShape val = true →
      ∃ e, unmarshalResponse val = .error e ∧
        processSheet js vm cb sheet =
          ⟨.returned st.output
            (some ("row: " ++ toString i ++ ", do not understand response " ++ src1 ++ ", " ++ e)),
            vm1, st.evals ++ [jsSrc cb (stringMapText (recordAt sheet i))]⟩ ∧
        st.output.length = i - 1) ∧
    (rejectedShape val = false → canon val ≠ .null →
      ∃ response, unmarshalResponse val = .ok (some response)) := by
  refine ⟨unmarshalResponse_error_iff val, ?_, unmarshalResponse_accepts val⟩
  intro hrej
  obtain ⟨e, he⟩ := (unmarshalResponse_error_iff val).2 hrej
  have hrow : rowExec js cb sheet i st =
      ⟨.fail ("row: " ++ toString i ++ ", do not understand response " ++ src1 ++ ", " ++ e), vm1,
        [jsSrc cb (stringMapText (recordAt sheet i))]⟩ := by
    unfold rowExec
    rw [transformRow_answer js cb i _ st.vm vm1 jsValue val src1 hcb hEval hExport hMarshal, he]
  have hp := processSheet_fail_at js vm cb sheet i st _ hi hlt hst (by rw [hrow])
  rw [hrow] at hp
  exact ⟨e, he, hp, (stateAt_lengths js vm cb sheet i st (Nat.le_of_lt hlt) hst).1⟩

/-- C6 as amended, at the sheet `[Name] / [Ada]` with a transform that answers
the array `[1]`. -/
theorem shape_gate_witness :
    ((∃ e, unmarshalResponse (.array [.number "1" "1"]) = .error e) ↔
      rejectedShape (.array [.number "1" "1"]) = true) ∧
    (rejectedShape (.array [.number "1" "1"]) = true →
      ∃ e, unmarshalResponse (.array [.number "1" "1"]) = .error e ∧
        processSheet (constVM (.array [.number "1" "1"])) 0 "f" [["Name"], ["Ada"]] =
          ⟨.returned []
            (some ("row: " ++ toString 1 ++ ", do not understand response " ++ "[1]" ++ ", " ++ e)),
            1, [] ++ [jsSrc "f" (stringMapText (recordAt [["Name"], ["Ada"]] 1))]⟩ ∧
        ([] : List String).length = 1 - 1) ∧
    (rejectedShape (.array [.number "1" "1"]) = false → canon (.array [.number "1" "1"]) ≠ .null →
      ∃ response, unmarshalResponse (.array [.number "1" "1"]) = .ok (some response)) :=
  shape_gate (constVM (.array [.number "1" "1"])) 0 1 "f" [["Name"], ["Ada"]] 1
    ⟨["Name"], [], 0, []⟩ ⟨.ok (.array [.number "1" "1"]), "[object Object]"⟩
    (.array [.number "1" "1"]) "[1]" (by decide) (by decide) (by decide) rfl rfl rfl rfl

/-- C7 fails as stated: on the sheet `[A, B] / [x]` without a transform the
one entry is `{"A":"x"}`, which decodes as an object with the key `A` only,
while `B` is a column name of the header row. -/
theorem header_keys_counterexample :
    (processSheet (constVM .null) 0 "" [["A", "B"], ["x"]]).outcome =
      .returned ["\x7b\"A\":\"x\"\x7d"] none ∧
    decodeStringMap "\x7b\"A\":\"x\"\x7d" = some [("A", "x")] ∧
    "B" ∈ List.getD [["A", "B"], ["x"]] 0 [] ∧
    "B" ∉ mapKeys [("A", "x")] := by
  decide

/-- C7 as amended: without a transform, the entry of every data row `i`
decodes as a JSON object whose keys are the names `columnNames` has, after
the row, at the positions of the cells of the row; for a row with as many
cells as the header row they are the column names of the header row. -/
theorem output_keys {σ : Type} (js : JavaScriptVM σ) (vm : σ) (sheet : Sheet) (i : Nat)
    (hi : 1 ≤ i) (hlt : i < sheet.length) :
    ∃ (output : List String) (text : String) (record : List (String × String)),
      (processSheet js vm "" sheet).outcome = .returned output none ∧
      output.length = sheet.length - 1 ∧
      output[i - 1]? = some text ∧
      decodeStringMap text = some record ∧
      (∀ key, key ∈ mapKeys record ↔
        ∃ c, c < (sheet.getD i []).length ∧ (namesAt sheet (i + 1))[c]? = some key) ∧
      ((sheet.getD i []).length = (sheet.getD 0 []).length →
        ∀ key, key ∈ mapKeys record ↔ key ∈ sheet.getD 0 []) := by
  refine ⟨((blobsFrom 0 sheet []).drop 1).map stringMapText, stringMapText (recordAt sheet i),
    recordAt sheet i, by rw [processSheet_no_callback], by simp [blobsFrom_length], ?_,
    decodeStringMap_stringMapText _, recordAt_keys sheet i hi hlt, ?_⟩
  · have hidx : i - 1 + 1 = i := by omega
    simp [List.getElem?_drop, hidx, blobsFrom_zero_getElem? sheet i hlt]
  · intro hlen key
    rw [recordAt_keys sheet i hi hlt, List.mem_iff_getElem?]
    constructor
    · rintro ⟨c, hc, hget⟩
      rw [namesAt_header sheet (i + 1) c (by omega) (by omega)] at hget
      exact ⟨c, hget⟩
    · rintro ⟨c, hget⟩
      have hc : c < (sheet.getD 0 []).length := by
        by_contra hge
        rw [List.getElem?_eq_none (by omega)] at hget
        cases hget
      refine ⟨c, by omega, ?_⟩
      rw [namesAt_header sheet (i + 1) c (by omega) hc]
      exact hget

/-- C7 as amended, at the sheet `[A, B] / [x, y] / [z]`, row 1. -/
theorem output_keys_witness :
    ∃ (output : List String) (text : String) (record : List (String × String)),
      (processSheet (constVM .null) 0 "" [["A", "B"], ["x", "y"], ["z"]]).outcome =
        .returned output none ∧
      output.length = List.length [["A", "B"], ["x", "y"], ["z"]] - 1 ∧
      output[1 - 1]? = some text ∧
      decodeStringMap text = some record ∧
      (∀ key, key ∈ mapKeys record ↔
        ∃ c, c < (List.getD [["A", "B"], ["x", "y"], ["z"]] 1 []).length ∧
          (namesAt [["A", "B"], ["x", "y"], ["z"]] (1 + 1))[c]? = some key) ∧
      ((List.getD [["A", "B"], ["x", "y"], ["z"]] 1 []).length =
          (List.getD [["A", "B"], ["x", "y"], ["z"]] 0 []).length →
        ∀ key, key ∈ mapKeys record ↔ key ∈ List.getD [["A", "B"], ["x", "y"], ["z"]] 0 []) :=
  output_keys (constVM .null) 0 [["A", "B"], ["x", "y"], ["z"]] 1 (by decide) (by decide)

/-- C11 fails as stated: on the workbook with the one sheet
`[Name] / [Ada] / [Bob]` and a transform that answers row 1 and throws at row
2, `processSheet` returns the entry of row 1 with the error of row 2, and
`Run` with sheet index 0 returns the nil output with that error: not the
result of `processSheet`. -/
theorem run_sheet_counterexample :
    (processSheet (failAfter 1 (.object [("source", .object [])])) 0 "f"
      [["Name"], ["Ada"], ["Bob"]]).outcome =
        .returned ["\x7b\x7d"] (some "row: 2, Can't run ReferenceError") ∧
    (Run (oneSheet [["Name"], ["Ada"], ["Bob"]])
      (failAfter 1 (.object [("source", .object [])])) 0 "book.xlsx" 0 "f").outcome =
        .returned [] (some "row: 2, Can't run ReferenceError") ∧
    (Run (oneSheet [["Name"], ["Ada"], ["Bob"]])
      (failAfter 1 (.object [("source", .object [])])) 0 "book.xlsx" 0 "f").outcome ≠
    (processSheet (failAfter 1 (.object [("source", .object [])])) 0 "f"
      [["Name"], ["Ada"], ["Bob"]]).outcome := by
  decide

/-- C11 as amended: on a workbook with the sheets `sheets`, `Run` with a sheet
index `k` below their number processes the sheet at position `k` and no
other: its VM state and evaluations are those of `processSheet` on that
sheet, it returns the output of `processSheet` when that returns no error,
and the nil output with the error of `processSheet` when that returns one.
With a negative index or one at or past the number of sheets, `Run` returns
the nil output and the error `Could not find sheet no <index>`, the VM state
is unchanged and nothing is evaluated. -/
theorem run_sheet_lookup {σ : Type} (openFile : String → Except String (List Sheet))
    (js : JavaScriptVM σ) (vm : σ) (path : String) (sheetNo : Int) (cb : String)
    (sheets : List Sheet) (hOpen : openFile path = .ok sheets) :
    (∀ k : Nat, sheetNo = (k : Int) → k < sheets.length →
      (Run openFile js vm path sheetNo cb).vm = (processSheet js vm cb (sheets.getD k [])).vm ∧
      (Run openFile js vm path sheetNo cb).evals =
        (processSheet js vm cb (sheets.getD k [])).evals ∧
      (∀ output, (processSheet js vm cb (sheets.getD k [])).outcome = .returned output none →
        (Run openFile js vm path sheetNo cb).outcome = .returned output none) ∧
      (∀ output err,
        (processSheet js vm cb (sheets.getD k [])).outcome = .returned output (some err) →
          (Run openFile js vm path sheetNo cb).outcome = .returned [] (some err))) ∧
    ((sheetNo < 0 ∨ (sheets.length : Int) ≤ sheetNo) →
      Run openFile js vm path sheetNo cb =
        ⟨.returned [] (some ("Could not find sheet no " ++ toString sheetNo)), vm, []⟩) := by
  constructor
  · intro k hk hlt
    subst hk
    have hrun := Run_eq openFile js vm path (k : Int) cb sheets (sheets.getD k []) hOpen
      (findSheet_at sheets k hlt)
    rw [hrun]
    refine ⟨rfl, rfl, ?_, ?_⟩
    · intro output hout
      simp only [hout]
    · intro output err hout
      simp only [hout]
  · intro h
    unfold Run
    simp only [hOpen, findSheet_none sheets sheetNo h]

/-- C11 as amended, at a workbook with the two sheets `[A] / [x]` and
`[Name] / [Ada]`, sheet index 1. -/
theorem run_sheet_lookup_witness :
    (Run (fun _ => .ok [[["A"], ["x"]], [["Name"], ["Ada"]]]) (constVM .null) 0 "book.xlsx" 1
      "").outcome = .returned ["\x7b\"Name\":\"Ada\"\x7d"] none ∧
    Run (fun _ => .ok [[["A"], ["x"]], [["Name"], ["Ada"]]]) (constVM .null) 0 "book.xlsx" 2 "f" =
      ⟨.returned [] (some "Could not find sheet no 2"), 0, []⟩ ∧
    Run (fun _ => .ok [[["A"], ["x"]], [["Name"], ["Ada"]]]) (constVM .null) 0 "book.xlsx" (-1)
        "f" =
      ⟨.returned [] (some "Could not find sheet no -1"), 0, []⟩ :=
  ⟨((run_sheet_lookup (fun _ => .ok [[["A"], ["x"]], [["Name"], ["Ada"]]]) (constVM .null) 0
      "book.xlsx" 1 "" [[["A"], ["x"]], [["Name"], ["Ada"]]] rfl).1 1 rfl (by decide)).2.2.1
      ["\x7b\"Name\":\"Ada\"\x7d"] rfl,
    (run_sheet_lookup (fun _ => .ok [[["A"], ["x"]], [["Name"], ["Ada"]]]) (constVM .null) 0
      "book.xlsx" 2 "f" [[["A"], ["x"]], [["Name"], ["Ada"]]] rfl).2 (by decide),
    (run_sheet_lookup (fun _ => .ok [[["A"], ["x"]], [["Name"], ["Ada"]]]) (constVM .null) 0
      "book.xlsx" (-1) "f" [[["A"], ["x"]], [["Name"], ["Ada"]]] rfl).2 (by decide)⟩

/-- C12: every error `processSheet` returns is the error of a data row `i` that
is reached, whatever stage of lines 106-138 gave it, and its message starts
with `row: <i>, `, where `i` is the index of the row in the sheet (the header
row is row 0, and the entries of the rows `1..i-1` are in the output). -/
theorem row_error_names_row {σ : Type} (js : JavaScriptVM σ) (vm : σ) (cb : String)
    (sheet : Sheet) (out : List String) (err : String)
    (h : (processSheet js vm cb sheet).outcome = .returned out (some err)) :
    ∃ (i : Nat) (st : LoopState σ) (rest : String), 1 ≤ i ∧ i < sheet.length ∧
      stateAt js vm cb sheet i = some st ∧ (rowExec js cb sheet i st).result = .fail err ∧
      out.length = i - 1 ∧
      err = "row: " ++ toString i ++ ", " ++ rest := by
  obtain ⟨i, st, hi, hlt, hst, hfail, hout⟩ := processSheet_failed_row js vm cb sheet out err h
  obtain ⟨rest, hrest⟩ := transformRow_fail_row js cb i _ st.vm err hfail
  refine ⟨i, st, rest, hi, hlt, hst, hfail, ?_, hrest⟩
  rw [hout]
  exact (stateAt_lengths js vm cb sheet i st (Nat.le_of_lt hlt) hst).1

/-- C12 at the sheet `[Name] / [Ada] / [Bob]` with a transform that answers row
1 and throws at row 2: the error names row 2. -/
theorem row_error_names_row_witness :
    ∃ (i : Nat) (st : LoopState Nat) (rest : String), 1 ≤ i ∧
      i < List.length [["Name"], ["Ada"], ["Bob"]] ∧
      stateAt (failAfter 1 (.object [("source", .object [])])) 0 "f"
        [["Name"], ["Ada"], ["Bob"]] i = some st ∧
      (rowExec (failAfter 1 (.object [("source", .object [])])) "f"
        [["Name"], ["Ada"], ["Bob"]] i st).result = .fail "row: 2, Can't run ReferenceError" ∧
      List.length ["\x7b\x7d"] = i - 1 ∧
      "row: 2, Can't run ReferenceError" = "row: " ++ toString i ++ ", " ++ rest :=
  row_error_names_row (failAfter 1 (.object [("source", .object [])])) 0 "f"
    [["Name"], ["Ada"], ["Bob"]] ["\x7b\x7d"] "row: 2, Can't run ReferenceError" rfl

/-- C13: on a run of `processSheet` with a transform name `f` that returns no
error, the source texts evaluated are one per data row, in row order: the
text for row `i` is `(function(){ return f(j);}())` with `j` the JSON text of
the record of row `i`; there are as many as data rows, none for the header
row, and as many as output entries. -/
theorem one_evaluation_per_row {σ : Type} (js : JavaScriptVM σ) (vm : σ) (f : String)
    (sheet : Sheet) (out : List String) (hf : f ≠ "")
    (h : (processSheet js vm f sheet).outcome = .returned out none) :
    (processSheet js vm f sheet).evals.length = sheet.length - 1 ∧
    out.length = sheet.length - 1 ∧
    (∀ i, 1 ≤ i → i < sheet.length →
      ∃ j, marshalStringMap (recordAt sheet i) = .ok j ∧
        (processSheet js vm f sheet).evals[i - 1]? =
          some ("(function()\x7b return " ++ f ++ "(" ++ j ++ ");\x7d())")) := by
  have hev := processSheet_success_evals js vm f hf sheet out h
  refine ⟨?_, ?_, ?_⟩
  · rw [hev]
    simp [blobsFrom_length]
  · have := sheetLoop_returned js f sheet 0 [] [] vm [] out h
    simpa [dataRows] using this
  · intro i hi hlt
    refine ⟨stringMapText (recordAt sheet i), rfl, ?_⟩
    have hidx : i - 1 + 1 = i := by omega
    rw [hev]
    simp [List.getElem?_drop, hidx, blobsFrom_zero_getElem? sheet i hlt, jsSrc]

/-- C13 at the sheet `[Name] / [Ada] / [Bob]` with a transform `f` that answers
`{"source": {}}`: two evaluations, of row 1 and of row 2. -/
theorem one_evaluation_per_row_witness :
    (processSheet (constVM (.object [("source", .object [])])) 0 "f"
      [["Name"], ["Ada"], ["Bob"]]).evals =
        ["(function()\x7b return f(\x7b\"Name\":\"Ada\"\x7d);\x7d())",
          "(function()\x7b return f(\x7b\"Name\":\"Bob\"\x7d);\x7d())"] ∧
    (processSheet (constVM (.object [("source", .object [])])) 0 "f"
      [["Name"], ["Ada"], ["Bob"]]).evals.length = List.length [["Name"], ["Ada"], ["Bob"]] - 1 ∧
    List.length ["\x7b\x7d", "\x7b\x7d"] = List.length [["Name"], ["Ada"], ["Bob"]] - 1 :=
  have h := one_evaluation_per_row (constVM (.object [("source", .object [])])) 0 "f"
    [["Name"], ["Ada"], ["Bob"]] ["\x7b\x7d", "\x7b\x7d"] (by decide) rfl
  ⟨rfl, h.1, h.2.1⟩

/-- C14, the code at the failing input: on the sheet `[Name] / [Ada]` with a
transform `f` that answers `null` (or has no return value), the exported value
is written `null`, `json.Unmarshal(src, &response)` returns no error and sets
the pointer `response` to nil, and `response.Error` on line 130 dereferences
it: `processSheet` does not return, it panics. -/
theorem null_answer_dereferences_nil :
    marshalValue .null = .ok "null" ∧
    unmarshalResponse .null = .ok none ∧
    (rowExec (constVM .null) "f" [["Name"], ["Ada"]] 1 ⟨["Name"], [], 0, []⟩).result =
      .panic "runtime error: invalid memory address or nil pointer dereference" ∧
    (processSheet (constVM .null) 0 "f" [["Name"], ["Ada"]]).outcome =
      .panicked "runtime error: invalid memory address or nil pointer dereference" ∧
    (∀ out err, (processSheet (constVM .null) 0 "f" [["Name"], ["Ada"]]).outcome ≠
      .returned out err) := by
  refine ⟨rfl, rfl, rfl, rfl, ?_⟩
  intro out err h
  have hp : (processSheet (constVM .null) 0 "f" [["Name"], ["Ada"]]).outcome =
      .panicked "runtime error: invalid memory address or nil pointer dereference" := rfl
  rw [hp] at h
  cases h

end Xlsx2json
